import Mathlib

/-!
Verification of the GPIO-based I2C bit-bang engine (`src/device/i2c_gpio.c`).

The C file implements one participant on a two-wire open-drain bus: a wire
decoder (`i2c_gpio_set`) consuming raw (scl, sda) level pairs, and a byte
dispatcher (`i2c_gpio_write` / `i2c_gpio_next_byte` / `i2c_gpio_stop`)
performing the downstream directory calls (`i2c_start`, `i2c_stop`,
`i2c_read`, `i2c_write`, `i2c_has_device`).

The embedding below keeps the C names.  All `uint8_t` fields are modelled as
`Nat` with `% 256` applied exactly where C truncation occurs; C truthiness
tests (`if (x)`) become `x ≠ 0`.  The external bus directory is an
environment (`i2cbus`): a device-presence predicate plus a read oracle
indexed by the number of `i2c_read` calls made so far.  Every downstream
call is recorded in an event trace, in call order.
-/

/-- Events observed by the external bus directory, in the order the engine
issues the calls.  `start`/`stop` are `i2c_start`/`i2c_stop`
(begin/endTransaction), `rd`/`wr` are `i2c_read`/`i2c_write`
(readByte/writeByte), `hasDev` records an `i2c_has_device` query and its
answer. -/
inductive BusEv where
  | start (addr : Nat)
  | stop (addr : Nat)
  | rd (addr val : Nat)
  | wr (addr val : Nat)
  | hasDev (addr : Nat) (res : Bool)
deriving DecidableEq

/-- The external bus directory: which 7-bit addresses have a registered
device, and the byte returned by the k-th `i2c_read` call (k counts all
reads made by this engine since creation) at a given address.  The oracle is
truncated to a byte at the call site, mirroring `i2c_read`'s `uint8_t`
return type. -/
structure I2cBus where
  hasDevice : Nat → Bool
  readVal : Nat → Nat → Nat

/-- The `i2c_gpio_t` record from the C source (minus the opaque `bus_name`
and `i2c` handles, which live in the environment).  Field order and names
follow the C declaration. -/
structure i2c_gpio_t where
  scl : Nat
  sda : Nat
  state : Nat
  slave_state : Nat
  slave_addr : Nat
  slave_rw : Nat
  last_sda : Nat
  pos : Nat
  transmit : Nat
  byte : Nat
deriving DecidableEq

/- Wire-state (`dev->state`) encoding, from the C enum:
   I2C_IDLE = 0, I2C_RECEIVE = 1, I2C_RECEIVE_WAIT = 2,
   I2C_TRANSMIT_START = 3, I2C_TRANSMIT = 4, I2C_ACKNOWLEDGE = 5,
   I2C_TRANSACKNOWLEDGE = 6, I2C_TRANSMIT_WAIT = 7.
   Byte-state (`dev->slave_state`): SLAVE_IDLE = 0, SLAVE_RECEIVEADDR = 1,
   SLAVE_RECEIVEDATA = 2, SLAVE_SENDDATA = 3, SLAVE_INVALID = 4.
   Driver roles: TRANSMITTER_SLAVE = 1, TRANSMITTER_MASTER = 2. -/

/-- A machine configuration: the device record plus the observable history
(the trace of directory calls and the count of `i2c_read` calls made, which
indexes the read oracle). -/
structure Sim where
  dev : i2c_gpio_t
  trace : List BusEv
  nreads : Nat
deriving DecidableEq

/-- `i2c_gpio_init`: `memset 0`, then `scl = sda = 1`, `slave_addr = 0xff`. -/
def i2c_gpio_init : i2c_gpio_t :=
  { scl := 1, sda := 1, state := 0, slave_state := 0, slave_addr := 255,
    slave_rw := 0, last_sda := 0, pos := 0, transmit := 0, byte := 0 }

/-- The configuration right after `i2c_gpio_init`: empty trace, no reads. -/
def initSim : Sim := { dev := i2c_gpio_init, trace := [], nreads := 0 }

/-- `i2c_gpio_next_byte`: `dev->byte = i2c_read(dev->i2c, dev->slave_addr)`. -/
def i2c_gpio_next_byte (env : I2cBus) (m : Sim) : Sim :=
  let v := env.readVal m.nreads m.dev.slave_addr % 256
  { dev := { m.dev with byte := v },
    trace := m.trace ++ [BusEv.rd m.dev.slave_addr v],
    nreads := m.nreads + 1 }

/-- `i2c_gpio_write`: the byte dispatcher, invoked once per completed byte.
Translated case-for-case from the C `switch (dev->slave_state)`. -/
def i2c_gpio_write (env : I2cBus) (m : Sim) : Sim :=
  let dev := m.dev
  match dev.slave_state with
  | 0 =>
      -- SLAVE_IDLE: this byte is the address + direction byte.
      let i := dev.slave_addr
      let dev := { dev with slave_addr := dev.byte / 2, slave_rw := dev.byte % 2 }
      let trace := m.trace ++ [BusEv.hasDev dev.slave_addr (env.hasDevice dev.slave_addr)]
      if env.hasDevice dev.slave_addr then
        let trace := if i = 255 then trace ++ [BusEv.start dev.slave_addr] else trace
        if dev.slave_rw ≠ 0 then
          let v := env.readVal m.nreads dev.slave_addr % 256
          { dev := { dev with slave_state := 3, transmit := 1, byte := v },
            trace := trace ++ [BusEv.rd dev.slave_addr v],
            nreads := m.nreads + 1 }
        else
          { m with dev := { dev with slave_state := 1, transmit := 2 }, trace := trace }
      else
        { m with dev := { dev with slave_state := 4 }, trace := trace }
  | 1 =>
      -- SLAVE_RECEIVEADDR: first payload byte of a write-direction transfer.
      { m with dev := { dev with slave_state := if dev.slave_rw ≠ 0 then 3 else 2 },
               trace := m.trace ++ [BusEv.wr dev.slave_addr dev.byte] }
  | 2 =>
      -- SLAVE_RECEIVEDATA: subsequent payload bytes.
      { m with trace := m.trace ++ [BusEv.wr dev.slave_addr dev.byte] }
  | _ => m

/-- `i2c_gpio_stop`: close the transfer; `i2c_stop` is issued only when a
target address is latched. -/
def i2c_gpio_stop (m : Sim) : Sim :=
  let trace := if m.dev.slave_addr ≠ 255 then m.trace ++ [BusEv.stop m.dev.slave_addr] else m.trace
  { m with dev := { m.dev with slave_addr := 255, slave_state := 0, transmit := 2 },
           trace := trace }

/-- The trailing level-caching step of `i2c_gpio_set`: on a rising clock edge
latch the (possibly modified) local `sda` into `dev->sda`, then always cache
`last_sda` and `scl`.  Skipped by the early `return` in the TRANSMIT case. -/
def finishSet (m : Sim) (scl sda : Nat) : Sim :=
  let dev := m.dev
  let dev := if dev.scl = 0 ∧ scl ≠ 0 then { dev with sda := sda } else dev
  { m with dev := { dev with last_sda := sda, scl := scl } }

/-- Body shared by the I2C_RECEIVE and I2C_RECEIVE_WAIT cases of
`i2c_gpio_set` (the C `switch` falls through): sample a bit on a rising
edge, dispatch the byte at 8 bits; otherwise, with the clock held high,
detect stop (data low→high) or repeated start (data high→low). -/
def receiveBody (env : I2cBus) (m : Sim) (scl sda : Nat) : Sim :=
  let dev := m.dev
  if dev.scl = 0 ∧ scl ≠ 0 then
    let b := dev.byte * 2 % 256
    let b := if sda ≠ 0 then b ||| 1 else b &&& 254
    let p := (dev.pos + 1) % 256
    if p = 8 then
      let m := i2c_gpio_write env { m with dev := { dev with byte := b, pos := p } }
      finishSet { m with dev := { m.dev with state := 5 } } scl sda
    else
      finishSet { m with dev := { dev with byte := b, pos := p } } scl sda
  else if dev.scl ≠ 0 ∧ scl ≠ 0 then
    if sda ≠ 0 ∧ dev.last_sda = 0 then
      finishSet (i2c_gpio_stop { m with dev := { dev with state := 0 } }) scl sda
    else if sda = 0 ∧ dev.last_sda ≠ 0 then
      finishSet { m with dev := { dev with pos := 0, slave_state := 0 } } scl sda
    else
      finishSet m scl sda
  else
    finishSet m scl sda

/-- Body shared by the I2C_TRANSMIT_START and I2C_TRANSMIT cases (fall
through): on a rising edge drive the next most-significant bit and return
early (skipping the level-caching step, though `dev->scl` was already
updated inside the branch); on a falling edge with 8 bits sent, enter
I2C_TRANSACKNOWLEDGE. -/
def transmitBody (m : Sim) (scl sda : Nat) : Sim :=
  let dev := m.dev
  if dev.scl = 0 ∧ scl ≠ 0 then
    { m with dev := { dev with scl := scl, sda := dev.byte &&& 128,
                               byte := dev.byte * 2 % 256, pos := (dev.pos + 1) % 256 } }
  else if dev.scl ≠ 0 ∧ scl = 0 ∧ dev.pos = 8 then
    finishSet { m with dev := { dev with state := 6 } } scl sda
  else
    finishSet m scl sda

/-- `i2c_gpio_set(dev, scl, sda)`: the sole state-mutating entry point,
translated case-for-case from the C `switch (dev->state)` (including both
fall-throughs and the local-`sda` rebinding in the ACKNOWLEDGE case). -/
def i2c_gpio_set (env : I2cBus) (m : Sim) (scl sda : Nat) : Sim :=
  let dev := m.dev
  match dev.state with
  | 0 =>
      -- I2C_IDLE: start bit = data high→low while clock sampled high.
      if scl ≠ 0 ∧ dev.last_sda ≠ 0 ∧ sda = 0 then
        finishSet { m with dev := { dev with state := 1, pos := 0 } } scl sda
      else finishSet m scl sda
  | 2 =>
      -- I2C_RECEIVE_WAIT: on rising edge enter RECEIVE; fall through.
      let dev := if dev.scl = 0 ∧ scl ≠ 0 then { dev with state := 1 } else dev
      receiveBody env { m with dev := dev } scl sda
  | 1 =>
      -- I2C_RECEIVE.
      receiveBody env m scl sda
  | 5 =>
      -- I2C_ACKNOWLEDGE: on rising edge force the ack bit low.
      if dev.scl = 0 ∧ scl ≠ 0 then
        let st := if dev.transmit = 2 then 2 else 4
        finishSet { m with dev := { dev with pos := 0, state := st } } scl 0
      else finishSet m scl sda
  | 6 =>
      -- I2C_TRANSACKNOWLEDGE: sample the master's (n)ack.
      if dev.scl = 0 ∧ scl ≠ 0 then
        if sda ≠ 0 then
          finishSet (i2c_gpio_stop { m with dev := { dev with state := 0 } }) scl sda
        else
          let m := i2c_gpio_next_byte env { m with dev := { dev with state := 3 } }
          finishSet { m with dev := { m.dev with pos := 0 } } scl sda
      else finishSet m scl sda
  | 7 =>
      -- I2C_TRANSMIT_WAIT: repeated start / stop while the clock stays high.
      if dev.scl ≠ 0 ∧ scl ≠ 0 then
        if dev.last_sda ≠ 0 ∧ sda = 0 then
          let m := i2c_gpio_next_byte env m
          finishSet { m with dev := { m.dev with pos := 0 } } scl sda
        else if dev.last_sda = 0 ∧ sda ≠ 0 then
          finishSet (i2c_gpio_stop { m with dev := { dev with state := 0 } }) scl sda
        else finishSet m scl sda
      else finishSet m scl sda
  | 3 =>
      -- I2C_TRANSMIT_START: on rising edge enter TRANSMIT; independent stop
      -- check while the clock stays high; fall through.
      let dev := if dev.scl = 0 ∧ scl ≠ 0 then { dev with state := 4 } else dev
      let m :=
        if dev.scl ≠ 0 ∧ scl ≠ 0 ∧ dev.last_sda = 0 ∧ sda ≠ 0 then
          i2c_gpio_stop { m with dev := { dev with state := 0 } }
        else { m with dev := dev }
      transmitBody m scl sda
  | 4 =>
      -- I2C_TRANSMIT.
      transmitBody m scl sda
  | _ => finishSet m scl sda

/-- `i2c_gpio_get_scl`. -/
def i2c_gpio_get_scl (dev : i2c_gpio_t) : Nat := dev.scl

/-- `i2c_gpio_get_sda`: the level the engine presents on the data wire. -/
def i2c_gpio_get_sda (dev : i2c_gpio_t) : Nat :=
  if dev.state = 4 ∨ dev.state = 5 then dev.sda
  else if dev.state = 2 then 0
  else 1

/-- Feed a sequence of (scl, sda) level pairs, one `i2c_gpio_set` call each. -/
def i2c_gpio_run (env : I2cBus) (m : Sim) : List (Nat × Nat) → Sim
  | [] => m
  | e :: es => i2c_gpio_run env (i2c_gpio_set env m e.1 e.2) es

/-! ## Canonical edge encodings

The caller drives the wires; data only changes while the clock is low,
except for the start/stop conditions, which are data transitions while the
clock is held high.  These encoders produce the canonical edge stream for a
transaction, matching the protocol described in the source. -/

/-- Bit `i` of a byte (bit 7 is the most significant). -/
def byteBit (b i : Nat) : Nat := b / 2 ^ i % 2

/-- One received bit: set the data line while the clock is low, then raise
the clock so the engine samples it. -/
def bitEdges (x : Nat) : List (Nat × Nat) := [(0, x), (1, x)]

/-- One byte, most-significant bit first. -/
def byteEdges (b : Nat) : List (Nat × Nat) :=
  bitEdges (byteBit b 7) ++ bitEdges (byteBit b 6) ++ bitEdges (byteBit b 5) ++
  bitEdges (byteBit b 4) ++ bitEdges (byteBit b 3) ++ bitEdges (byteBit b 2) ++
  bitEdges (byteBit b 1) ++ bitEdges (byteBit b 0)

/-- The acknowledge clock pulse after a received byte: the master releases
the data line and pulses the clock; the engine drives the ack itself. -/
def ackEdges : List (Nat × Nat) := [(0, 1), (1, 1)]

/-- A stop condition: data taken low while the clock is low, clock raised,
then data released high while the clock stays high. -/
def stopEdges : List (Nat × Nat) := [(0, 0), (1, 0), (1, 1)]

/-- A start condition from idle lines: data sampled high once (so
`last_sda` becomes high), then data falls while the clock is high. -/
def startEdges : List (Nat × Nat) := [(1, 1), (1, 0)]

/-- A repeated start while the engine holds the ack (RECEIVE_WAIT): release
data during a low-clock phase, raise the clock, then drop data with the
clock still high. -/
def repStartEdges : List (Nat × Nat) := [(0, 1), (1, 1), (1, 0)]

/-- The data-byte blocks of a write-direction transaction: each byte is
followed by an acknowledge clock pulse. -/
def dataBlocks : List Nat → List (Nat × Nat)
  | [] => []
  | b :: bs => byteEdges b ++ ackEdges ++ dataBlocks bs

/-- A complete write-direction transaction: start, address byte
(`2*addr`, direction bit 0), acknowledged data bytes, stop. -/
def writeTxEdges (addr : Nat) (bytes : List Nat) : List (Nat × Nat) :=
  startEdges ++ byteEdges (2 * addr) ++ ackEdges ++ dataBlocks bytes ++ stopEdges

/-- One transmitted (read-direction) byte: eight clock pulses with the
master's data line released, a falling edge that ends the byte, then the
master's acknowledge (data low, `last = false`) or final not-acknowledge
(data high, `last = true`) on the ninth rising edge. -/
def txBlock (last : Bool) : List (Nat × Nat) :=
  [(0, 1), (1, 1), (0, 1), (1, 1), (0, 1), (1, 1), (0, 1), (1, 1),
   (0, 1), (1, 1), (0, 1), (1, 1), (0, 1), (1, 1), (0, 1), (1, 1),
   (0, 1), (1, if last then 1 else 0)]

/-- `j` acknowledged transmitted-byte blocks. -/
def ackBlocks : Nat → List (Nat × Nat)
  | 0 => []
  | j + 1 => txBlock false ++ ackBlocks j

/-- The stem of a read-direction transaction: start, address byte
(`2*addr + 1`, direction bit 1), and the engine's acknowledge pulse. -/
def readTxStem (addr : Nat) : List (Nat × Nat) :=
  startEdges ++ byteEdges (2 * addr + 1) ++ ackEdges

/-- A complete read-direction transaction of `n ≥ 1` bytes: the master
acknowledges the first `n - 1` bytes and not-acknowledges the last, which
ends the transfer. -/
def readTxEdges (addr n : Nat) : List (Nat × Nat) :=
  readTxStem addr ++ ackBlocks (n - 1) ++ txBlock true

/-- Number of `i2c_start` (beginTransaction) events in a trace. -/
def countStart (t : List BusEv) : Nat :=
  t.countP (fun e => match e with | BusEv.start _ => true | _ => false)

/-- Number of `i2c_stop` (endTransaction) events in a trace. -/
def countStop (t : List BusEv) : Nat :=
  t.countP (fun e => match e with | BusEv.stop _ => true | _ => false)

/-! ## Basic lemmas about the runner and bit arithmetic -/

@[simp]
theorem i2c_gpio_run_nil (env : I2cBus) (m : Sim) : i2c_gpio_run env m [] = m := rfl

@[simp]
theorem i2c_gpio_run_cons (env : I2cBus) (m : Sim) (e : Nat × Nat) (es : List (Nat × Nat)) :
    i2c_gpio_run env m (e :: es) = i2c_gpio_run env (i2c_gpio_set env m e.1 e.2) es := rfl

theorem i2c_gpio_run_append (env : I2cBus) (m : Sim) (xs ys : List (Nat × Nat)) :
    i2c_gpio_run env m (xs ++ ys) = i2c_gpio_run env (i2c_gpio_run env m xs) ys := by
  induction xs generalizing m with
  | nil => simp
  | cons e es ih => simp [ih]

/-- Every bit extracted by `byteBit` is 0 or 1. -/
@[simp]
theorem byteBit_le (b i : Nat) : byteBit b i ≤ 1 := by
  have h := Nat.mod_lt (b / 2 ^ i) (show 0 < 2 by norm_num)
  unfold byteBit
  omega

/-- The shift-in step of the RECEIVE case: shifting left then setting or
clearing the low bit equals shifting left and adding the sampled bit. -/
theorem shiftIn (B x : Nat) (hx : x ≤ 1) :
    (if x ≠ 0 then B * 2 % 256 ||| 1 else B * 2 % 256 &&& 254) = B * 2 % 256 + x := by
  have hk : B % 128 < 128 := Nat.mod_lt _ (by norm_num)
  have h2 : B * 2 % 256 = 2 * (B % 128) := by omega
  interval_cases x
  · have h : ∀ k < 128, 2 * k &&& 254 = 2 * k := by decide
    simp [h2]
    exact h _ hk
  · have h : ∀ k < 128, 2 * k ||| 1 = 2 * k + 1 := by decide
    simp [h2]
    exact h _ hk

/-! ## Single-edge and single-bit step lemmas

Each lemma pins down the exact behaviour of `i2c_gpio_set` on one canonical
edge (or pair of edges) from a symbolically described configuration. -/

/-- Receiving one bit (clock low with the bit on the data line, then clock
high) from RECEIVE or RECEIVE_WAIT, short of the byte boundary. -/
theorem recv_bit (env : I2cBus) (t : List BusEv) (n : Nat)
    (s st ss A rw l p tr B x : Nat) (hst : st = 1 ∨ st = 2) (hp : p ≤ 6) (hx : x ≤ 1) :
    i2c_gpio_run env ⟨⟨1, s, st, ss, A, rw, l, p, tr, B⟩, t, n⟩ (bitEdges x)
      = ⟨⟨1, x, 1, ss, A, rw, x, p + 1, tr, B * 2 % 256 + x⟩, t, n⟩ := by
  have h8 : ¬((p + 1) % 256 = 8) := by omega
  rcases hst with h | h <;> subst h <;>
    simp [bitEdges, i2c_gpio_set, receiveBody, finishSet, shiftIn B x hx, h8] <;>
    omega

/-- Receiving the first seven bits of a byte assembles the top seven bits in
the shift register; the byte is completed by the final `bitEdges` pair left
symbolic here. -/
theorem recv_byte_build (env : I2cBus) (t : List BusEv) (n : Nat)
    (s st ss A rw l tr B b : Nat) (hst : st = 1 ∨ st = 2) (hb : b ≤ 255) :
    i2c_gpio_run env ⟨⟨1, s, st, ss, A, rw, l, 0, tr, B⟩, t, n⟩ (byteEdges b)
      = i2c_gpio_set env
          (i2c_gpio_set env
            ⟨⟨1, byteBit b 1, 1, ss, A, rw, byteBit b 1, 7, tr, 128 * (B % 2) + b / 2⟩, t, n⟩
            0 (byteBit b 0))
          1 (byteBit b 0) := by
  simp only [byteEdges, i2c_gpio_run_append]
  rw [recv_bit env t n s st ss A rw l 0 tr B (byteBit b 7) hst (by omega) (byteBit_le b 7)]
  rw [recv_bit env t n (byteBit b 7) 1 ss A rw (byteBit b 7) 1 tr
        (B * 2 % 256 + byteBit b 7) (byteBit b 6) (Or.inl rfl) (by omega) (byteBit_le b 6)]
  rw [recv_bit env t n (byteBit b 6) 1 ss A rw (byteBit b 6) 2 tr
        ((B * 2 % 256 + byteBit b 7) * 2 % 256 + byteBit b 6) (byteBit b 5)
        (Or.inl rfl) (by omega) (byteBit_le b 5)]
  rw [recv_bit env t n (byteBit b 5) 1 ss A rw (byteBit b 5) 3 tr
        (((B * 2 % 256 + byteBit b 7) * 2 % 256 + byteBit b 6) * 2 % 256 + byteBit b 5)
        (byteBit b 4) (Or.inl rfl) (by omega) (byteBit_le b 4)]
  rw [recv_bit env t n (byteBit b 4) 1 ss A rw (byteBit b 4) 4 tr
        ((((B * 2 % 256 + byteBit b 7) * 2 % 256 + byteBit b 6) * 2 % 256 + byteBit b 5)
          * 2 % 256 + byteBit b 4) (byteBit b 3) (Or.inl rfl) (by omega) (byteBit_le b 3)]
  rw [recv_bit env t n (byteBit b 3) 1 ss A rw (byteBit b 3) 5 tr
        (((((B * 2 % 256 + byteBit b 7) * 2 % 256 + byteBit b 6) * 2 % 256 + byteBit b 5)
          * 2 % 256 + byteBit b 4) * 2 % 256 + byteBit b 3) (byteBit b 2)
        (Or.inl rfl) (by omega) (byteBit_le b 2)]
  rw [recv_bit env t n (byteBit b 2) 1 ss A rw (byteBit b 2) 6 tr
        ((((((B * 2 % 256 + byteBit b 7) * 2 % 256 + byteBit b 6) * 2 % 256 + byteBit b 5)
          * 2 % 256 + byteBit b 4) * 2 % 256 + byteBit b 3) * 2 % 256 + byteBit b 2)
        (byteBit b 1) (Or.inl rfl) (by omega) (byteBit_le b 1)]
  have hchain :
      (((((((B * 2 % 256 + byteBit b 7) * 2 % 256 + byteBit b 6) * 2 % 256 + byteBit b 5)
        * 2 % 256 + byteBit b 4) * 2 % 256 + byteBit b 3) * 2 % 256 + byteBit b 2)
        * 2 % 256 + byteBit b 1) = 128 * (B % 2) + b / 2 := by
    simp only [byteBit]
    norm_num
    omega
  rw [hchain]
  simp [bitEdges]

/-- Completing a payload byte in a write-direction transfer
(SLAVE_RECEIVEADDR or SLAVE_RECEIVEDATA): the byte is forwarded to
`i2c_write` and the byte state becomes SLAVE_RECEIVEDATA. -/
theorem recv_data_byte (env : I2cBus) (t : List BusEv) (n : Nat)
    (s st ss A l tr B b : Nat) (hst : st = 1 ∨ st = 2) (hss : ss = 1 ∨ ss = 2)
    (hb : b ≤ 255) :
    i2c_gpio_run env ⟨⟨1, s, st, ss, A, 0, l, 0, tr, B⟩, t, n⟩ (byteEdges b)
      = ⟨⟨1, byteBit b 0, 5, 2, A, 0, byteBit b 0, 8, tr, b⟩, t ++ [BusEv.wr A b], n⟩ := by
  rw [recv_byte_build env t n s st ss A 0 l tr B b hst hb]
  have hsh := shiftIn (128 * (B % 2) + b / 2) (byteBit b 0) (byteBit_le b 0)
  have hfull : (128 * (B % 2) + b / 2) * 2 % 256 + byteBit b 0 = b := by
    simp only [byteBit]
    norm_num
    omega
  rcases hss with h | h <;> subst h <;>
    simp [i2c_gpio_set, receiveBody, finishSet, i2c_gpio_write, hsh, hfull]

/-- Completing a payload byte while the byte state is SLAVE_INVALID (the
address named no registered device): no directory call is made and the byte
state stays SLAVE_INVALID. -/
theorem recv_invalid_byte (env : I2cBus) (t : List BusEv) (n : Nat)
    (s st rw A l tr B b : Nat) (hst : st = 1 ∨ st = 2) (hb : b ≤ 255) :
    i2c_gpio_run env ⟨⟨1, s, st, 4, A, rw, l, 0, tr, B⟩, t, n⟩ (byteEdges b)
      = ⟨⟨1, byteBit b 0, 5, 4, A, rw, byteBit b 0, 8, tr, b⟩, t, n⟩ := by
  rw [recv_byte_build env t n s st 4 A rw l tr B b hst hb]
  have hsh := shiftIn (128 * (B % 2) + b / 2) (byteBit b 0) (byteBit_le b 0)
  have hfull : (128 * (B % 2) + b / 2) * 2 % 256 + byteBit b 0 = b := by
    simp only [byteBit]
    norm_num
    omega
  simp [i2c_gpio_set, receiveBody, finishSet, i2c_gpio_write, hsh, hfull]

/-- Receiving a full byte, with the dispatcher call left symbolic: the
completed byte `b` is handed to `i2c_gpio_write`, the wire state moves to
I2C_ACKNOWLEDGE, and the final level-caching step runs on the eighth rising
edge. -/
theorem recv_byte_final (env : I2cBus) (t : List BusEv) (n : Nat)
    (s st ss A rw l tr B b : Nat) (hst : st = 1 ∨ st = 2) (hb : b ≤ 255) :
    i2c_gpio_run env ⟨⟨1, s, st, ss, A, rw, l, 0, tr, B⟩, t, n⟩ (byteEdges b)
      = finishSet
          { i2c_gpio_write env ⟨⟨0, byteBit b 1, 1, ss, A, rw, byteBit b 0, 8, tr, b⟩, t, n⟩ with
            dev := { (i2c_gpio_write env
                ⟨⟨0, byteBit b 1, 1, ss, A, rw, byteBit b 0, 8, tr, b⟩, t, n⟩).dev with
              state := 5 } }
          1 (byteBit b 0) := by
  rw [recv_byte_build env t n s st ss A rw l tr B b hst hb]
  have hsh := shiftIn (128 * (B % 2) + b / 2) (byteBit b 0) (byteBit_le b 0)
  have hfull : (128 * (B % 2) + b / 2) * 2 % 256 + byteBit b 0 = b := by
    simp only [byteBit]
    norm_num
    omega
  rw [hfull] at hsh
  have hA1 : i2c_gpio_set env
      ⟨⟨1, byteBit b 1, 1, ss, A, rw, byteBit b 1, 7, tr, 128 * (B % 2) + b / 2⟩, t, n⟩
      0 (byteBit b 0)
      = ⟨⟨0, byteBit b 1, 1, ss, A, rw, byteBit b 0, 7, tr, 128 * (B % 2) + b / 2⟩, t, n⟩ := by
    simp [i2c_gpio_set, receiveBody, finishSet]
  rw [hA1]
  simp only [i2c_gpio_set, receiveBody]
  rw [hsh]
  norm_num

/-- Completing a write-direction address byte (`2*A`, low bit 0) in
SLAVE_IDLE with no transaction open (`slave_addr = 0xff`) and a registered
device: `i2c_has_device` is consulted, `i2c_start` is issued, and the engine
prepares to receive payload bytes. -/
theorem recv_addr_write_new (env : I2cBus) (t : List BusEv) (n : Nat)
    (s st rw A l tr B : Nat) (hst : st = 1 ∨ st = 2) (hA : A ≤ 127)
    (hdev : env.hasDevice A = true) :
    i2c_gpio_run env ⟨⟨1, s, st, 0, 255, rw, l, 0, tr, B⟩, t, n⟩ (byteEdges (2 * A))
      = ⟨⟨1, 0, 5, 1, A, 0, 0, 8, 2, 2 * A⟩,
         t ++ [BusEv.hasDev A true, BusEv.start A], n⟩ := by
  rw [recv_byte_final env t n s st 0 255 rw l tr B (2 * A) hst (by omega)]
  have hb0 : byteBit (2 * A) 0 = 0 := by simp only [byteBit, pow_zero]; omega
  have haddr : 2 * A / 2 = A := by omega
  have hrw : 2 * A % 2 = 0 := by omega
  simp [i2c_gpio_write, finishSet, haddr, hrw, hdev, hb0]

/-- Completing a write-direction address byte in SLAVE_IDLE while a
transaction is already latched (`slave_addr ≠ 0xff`, i.e. after a repeated
start): `i2c_has_device` is consulted but NO `i2c_start` is issued. -/
theorem recv_addr_write_rep (env : I2cBus) (t : List BusEv) (n : Nat)
    (s st rw A0 A l tr B : Nat) (hst : st = 1 ∨ st = 2) (hA0 : A0 ≤ 127) (hA : A ≤ 127)
    (hdev : env.hasDevice A = true) :
    i2c_gpio_run env ⟨⟨1, s, st, 0, A0, rw, l, 0, tr, B⟩, t, n⟩ (byteEdges (2 * A))
      = ⟨⟨1, 0, 5, 1, A, 0, 0, 8, 2, 2 * A⟩, t ++ [BusEv.hasDev A true], n⟩ := by
  rw [recv_byte_final env t n s st 0 A0 rw l tr B (2 * A) hst (by omega)]
  have hb0 : byteBit (2 * A) 0 = 0 := by simp only [byteBit, pow_zero]; omega
  have haddr : 2 * A / 2 = A := by omega
  have hrw : 2 * A % 2 = 0 := by omega
  have hA0ne : ¬(A0 = 255) := by omega
  simp [i2c_gpio_write, finishSet, haddr, hrw, hdev, hb0, hA0ne]

/-- Completing a read-direction address byte (`2*A + 1`, low bit 1) in
SLAVE_IDLE with no transaction open and a registered device: `i2c_start` is
issued and the first outbound byte is immediately fetched via `i2c_read`. -/
theorem recv_addr_read_new (env : I2cBus) (t : List BusEv) (n : Nat)
    (s st rw A l tr B : Nat) (hst : st = 1 ∨ st = 2) (hA : A ≤ 127)
    (hdev : env.hasDevice A = true) :
    i2c_gpio_run env ⟨⟨1, s, st, 0, 255, rw, l, 0, tr, B⟩, t, n⟩ (byteEdges (2 * A + 1))
      = ⟨⟨1, 1, 5, 3, A, 1, 1, 8, 1, env.readVal n A % 256⟩,
         t ++ [BusEv.hasDev A true, BusEv.start A, BusEv.rd A (env.readVal n A % 256)],
         n + 1⟩ := by
  rw [recv_byte_final env t n s st 0 255 rw l tr B (2 * A + 1) hst (by omega)]
  have hb0 : byteBit (2 * A + 1) 0 = 1 := by simp only [byteBit, pow_zero]; omega
  have haddr : (2 * A + 1) / 2 = A := by omega
  have hrw : (2 * A + 1) % 2 = 1 := by omega
  simp [i2c_gpio_write, finishSet, haddr, hrw, hdev, hb0]

/-- Completing an address byte naming an address with NO registered device:
`i2c_has_device` is consulted, the byte state becomes SLAVE_INVALID, and no
other directory call is made.  Note `slave_addr` is already overwritten with
the new address, and `transmit` keeps its previous value. -/
theorem recv_addr_absent (env : I2cBus) (t : List BusEv) (n : Nat)
    (s st rw A0 A l tr B : Nat) (hst : st = 1 ∨ st = 2) (hA : A ≤ 127)
    (hdev : env.hasDevice A = false) :
    i2c_gpio_run env ⟨⟨1, s, st, 0, A0, rw, l, 0, tr, B⟩, t, n⟩ (byteEdges (2 * A))
      = ⟨⟨1, 0, 5, 4, A, 0, 0, 8, tr, 2 * A⟩, t ++ [BusEv.hasDev A false], n⟩ := by
  rw [recv_byte_final env t n s st 0 A0 rw l tr B (2 * A) hst (by omega)]
  have hb0 : byteBit (2 * A) 0 = 0 := by simp only [byteBit, pow_zero]; omega
  have haddr : 2 * A / 2 = A := by omega
  have hrw : 2 * A % 2 = 0 := by omega
  simp [i2c_gpio_write, finishSet, haddr, hrw, hdev, hb0]

/-- The acknowledge clock pulse after a received byte: on the rising edge
the engine forces the data line low, resets the bit counter, and moves to
RECEIVE_WAIT (relaying role) or TRANSMIT (sending role). -/
theorem ack_step (env : I2cBus) (t : List BusEv) (n : Nat)
    (s ss A rw l p tr B : Nat) :
    i2c_gpio_run env ⟨⟨1, s, 5, ss, A, rw, l, p, tr, B⟩, t, n⟩ ackEdges
      = ⟨⟨1, 0, if tr = 2 then 2 else 4, ss, A, rw, 0, 0, tr, B⟩, t, n⟩ := by
  simp [ackEdges, i2c_gpio_set, finishSet]

/-- The canonical stop sequence from RECEIVE_WAIT (after an acknowledge):
one stray zero bit is clocked in, then the data line rises while the clock
is high; the transaction is closed and `i2c_stop` is issued for the latched
address. -/
theorem stop_step (env : I2cBus) (t : List BusEv) (n : Nat)
    (s ss A rw tr B : Nat) (hA : A ≤ 127) :
    i2c_gpio_run env ⟨⟨1, s, 2, ss, A, rw, 0, 0, tr, B⟩, t, n⟩ stopEdges
      = ⟨⟨1, 0, 0, 0, 255, rw, 1, 1, 2, B * 2 % 256⟩, t ++ [BusEv.stop A], n⟩ := by
  have h254 := shiftIn B 0 (by omega)
  simp only [ne_eq, not_true_eq_false, if_false] at h254
  have hAne : ¬(A = 255) := by omega
  simp [stopEdges, i2c_gpio_set, receiveBody, finishSet, i2c_gpio_stop, h254, hAne]

/-- A repeated start from RECEIVE_WAIT: the released data line is clocked in
as a stray high bit, then data falls while the clock stays high; the bit
counter and byte state reset with no directory call. -/
theorem repstart_step (env : I2cBus) (t : List BusEv) (n : Nat)
    (s ss A rw tr B : Nat) :
    i2c_gpio_run env ⟨⟨1, s, 2, ss, A, rw, 0, 0, tr, B⟩, t, n⟩ repStartEdges
      = ⟨⟨1, 1, 1, 0, A, rw, 0, 0, tr, B * 2 % 256 + 1⟩, t, n⟩ := by
  have h1 := shiftIn B 1 (by omega)
  simp only [ne_eq, one_ne_zero, not_false_eq_true, if_true] at h1
  simp [repStartEdges, i2c_gpio_set, receiveBody, finishSet, h1]

/-- The canonical start sequence from IDLE: data sampled high once, then
data falls with the clock high; the engine enters RECEIVE with the bit
counter reset. -/
theorem start_step (env : I2cBus) (t : List BusEv) (n : Nat)
    (d ss A rw l p tr B : Nat) :
    i2c_gpio_run env ⟨⟨1, d, 0, ss, A, rw, l, p, tr, B⟩, t, n⟩ startEdges
      = ⟨⟨1, d, 1, ss, A, rw, 0, 0, tr, B⟩, t, n⟩ := by
  simp [startEdges, i2c_gpio_set, finishSet]

/-- The payload loop of a write-direction transaction: each data-byte block
appends exactly one `i2c_write` event, and the machine returns to the
RECEIVE_WAIT configuration. -/
theorem write_loop (env : I2cBus) (A : Nat) :
    ∀ (bytes : List Nat) (t : List BusEv) (n ss B : Nat),
      (∀ b ∈ bytes, b ≤ 255) → (ss = 1 ∨ ss = 2) →
      ∃ ss' B', (ss' = 1 ∨ ss' = 2) ∧
        i2c_gpio_run env ⟨⟨1, 0, 2, ss, A, 0, 0, 0, 2, B⟩, t, n⟩ (dataBlocks bytes)
          = ⟨⟨1, 0, 2, ss', A, 0, 0, 0, 2, B'⟩,
             t ++ bytes.map (fun b => BusEv.wr A b), n⟩ := by
  intro bytes
  induction bytes with
  | nil =>
      intro t n ss B _ hss
      exact ⟨ss, B, hss, by simp [dataBlocks]⟩
  | cons b bs ih =>
      intro t n ss B hb hss
      have hmem : b ≤ 255 := hb b (by simp)
      have hbs : ∀ x ∈ bs, x ≤ 255 := fun x hx => hb x (by simp [hx])
      obtain ⟨ss', B', hss', hrun⟩ :=
        ih (t ++ [BusEv.wr A b]) n 2 b hbs (Or.inr rfl)
      refine ⟨ss', B', hss', ?_⟩
      rw [show dataBlocks (b :: bs) = byteEdges b ++ (ackEdges ++ dataBlocks bs) by
            simp [dataBlocks]]
      rw [i2c_gpio_run_append, i2c_gpio_run_append]
      rw [recv_data_byte env t n 0 2 ss A 0 2 B b (Or.inr rfl) hss hmem]
      rw [ack_step env (t ++ [BusEv.wr A b]) n (byteBit b 0) 2 A 0 (byteBit b 0) 8 2 b]
      norm_num
      rw [hrun]
      simp

/-! ## Concrete environments used by witnesses and counterexamples -/

/-- A bus with a single device registered at address 0x51. -/
def envHas51 : I2cBus := ⟨fun a => a == 81, fun _ _ => 0⟩

/-- A bus on which every address has a registered device; the k-th read
returns `100 + k`. -/
def envAll : I2cBus := ⟨fun _ => true, fun k _ => 100 + k⟩

/-- A bus with no registered devices. -/
def envNone : I2cBus := ⟨fun _ => false, fun _ _ => 0⟩

/-! ## The claims -/

/-- Claim C1: feeding the canonical edge stream of a well-formed
write-direction transaction — start condition, address byte `2*A` for a
registered device `A`, N acknowledged data bytes, stop condition — makes
the directory observe exactly one `i2c_start` for `A`, then the N
`i2c_write` calls carrying exactly the transmitted bytes in order, then one
`i2c_stop` for `A` (preceded only by the `i2c_has_device` lookup). -/
theorem c1_write_transaction_trace (env : I2cBus) (A : Nat) (bytes : List Nat)
    (hA : A ≤ 127) (hbytes : ∀ b ∈ bytes, b ≤ 255) (hdev : env.hasDevice A = true) :
    (i2c_gpio_run env initSim (writeTxEdges A bytes)).trace
      = [BusEv.hasDev A true, BusEv.start A]
        ++ bytes.map (fun b => BusEv.wr A b) ++ [BusEv.stop A] := by
  obtain ⟨ss', B', hss', hrun⟩ :=
    write_loop env A bytes [BusEv.hasDev A true, BusEv.start A] 0 1 (2 * A)
      hbytes (Or.inl rfl)
  rw [show initSim = ⟨⟨1, 1, 0, 0, 255, 0, 0, 0, 0, 0⟩, [], 0⟩ from rfl]
  rw [writeTxEdges, i2c_gpio_run_append, i2c_gpio_run_append, i2c_gpio_run_append,
      i2c_gpio_run_append]
  rw [start_step env [] 0 1 0 255 0 0 0 0 0]
  rw [recv_addr_write_new env [] 0 1 1 0 A 0 0 0 (Or.inl rfl) hA hdev]
  simp only [List.nil_append]
  rw [ack_step env [BusEv.hasDev A true, BusEv.start A] 0 0 1 A 0 0 8 2 (2 * A)]
  norm_num
  rw [hrun]
  rw [stop_step env ([BusEv.hasDev A true, BusEv.start A]
        ++ bytes.map (fun b => BusEv.wr A b)) 0 0 ss' A 0 2 B' hA]
  simp

/-- Witness for C1 at a concrete input: device 0x51, one data byte 0x42. -/
theorem c1_write_transaction_trace_witness :
    81 ≤ 127 ∧ (∀ b ∈ [66], b ≤ 255) ∧ envHas51.hasDevice 81 = true ∧
    (i2c_gpio_run envHas51 initSim (writeTxEdges 81 [66])).trace
      = [BusEv.hasDev 81 true, BusEv.start 81]
        ++ [66].map (fun b => BusEv.wr 81 b) ++ [BusEv.stop 81] :=
  ⟨by norm_num, by decide, rfl,
   c1_write_transaction_trace envHas51 81 [66] (by norm_num) (by decide) rfl⟩

set_option maxRecDepth 10000 in
/-- Claim C4, counterexample: with a device at 0x51, the edge stream
encoding start, address byte 0xA3, data byte 0x42 and a stop yields NO
`i2c_write` of 0x42 — 0xA3 has direction bit 1 (read), so the engine
fetches a byte via `i2c_read` instead; the claimed `writeByte` never
happens. -/
theorem c4_counterexample :
    (i2c_gpio_run envHas51 initSim
        (startEdges ++ byteEdges 163 ++ ackEdges ++ byteEdges 66 ++ ackEdges ++ stopEdges)).trace
      = [BusEv.hasDev 81 true, BusEv.start 81, BusEv.rd 81 0, BusEv.stop 81] ∧
    BusEv.wr 81 66 ∉ (i2c_gpio_run envHas51 initSim
        (startEdges ++ byteEdges 163 ++ ackEdges ++ byteEdges 66 ++ ackEdges ++ stopEdges)).trace := by
  decide

set_option maxRecDepth 10000 in
/-- Claim C4 (amended): the write-direction address byte for device 0x51 is
0xA2, not 0xA3.  Feeding start, address byte 0xA2, data byte 0x42 and a
stop, with a device at 0x51, makes the directory observe exactly
`i2c_start(0x51)`, `i2c_write(0x51, 0x42)`, `i2c_stop(0x51)` (after the
`i2c_has_device` lookup), and `i2c_gpio_get_sda` returns the pulled-low
level just after the acknowledge rising edge following each byte (edge 20
for the address byte, edge 38 for the data byte). -/
theorem c4_amended :
    (i2c_gpio_run envHas51 initSim (writeTxEdges 81 [66])).trace
      = [BusEv.hasDev 81 true, BusEv.start 81, BusEv.wr 81 66, BusEv.stop 81] ∧
    i2c_gpio_get_sda (i2c_gpio_run envHas51 initSim
        (List.take 20 (writeTxEdges 81 [66]))).dev = 0 ∧
    i2c_gpio_get_sda (i2c_gpio_run envHas51 initSim
        (List.take 38 (writeTxEdges 81 [66]))).dev = 0 := by
  decide

set_option maxRecDepth 10000 in
/-- Claim C3, counterexample: devices at 0x10 and 0x20 (every address is
registered in `envAll`), write transaction to 0x10, repeated start, address
byte for 0x20, stop: NO fresh `i2c_start(0x20)` is issued — the code only
calls `i2c_start` when the previous `slave_addr` was the 0xff sentinel,
which a repeated start does not reset. -/
theorem c3_counterexample :
    BusEv.start 32 ∉ (i2c_gpio_run envAll initSim
      (startEdges ++ byteEdges 32 ++ ackEdges ++ repStartEdges
        ++ byteEdges 64 ++ ackEdges ++ stopEdges)).trace := by
  decide

/-- Claim C3 (amended): a repeated start mid-transaction resets the bit
counter and the byte state without any `i2c_stop`/`i2c_start` pair being
emitted, and the following address byte for a different registered address
is checked via `i2c_has_device` but does NOT trigger a fresh `i2c_start`
(the start call is only made when no transaction was open); the eventual
stop condition closes the transaction with `i2c_stop` for the new address. -/
theorem c3_repeated_start (env : I2cBus) (a1 a2 : Nat)
    (h1 : a1 ≤ 127) (h2 : a2 ≤ 127)
    (hd1 : env.hasDevice a1 = true) (hd2 : env.hasDevice a2 = true) :
    (i2c_gpio_run env initSim
        (startEdges ++ byteEdges (2 * a1) ++ ackEdges ++ repStartEdges)).dev.pos = 0 ∧
    (i2c_gpio_run env initSim
        (startEdges ++ byteEdges (2 * a1) ++ ackEdges ++ repStartEdges)).dev.slave_state = 0 ∧
    (i2c_gpio_run env initSim
        (startEdges ++ byteEdges (2 * a1) ++ ackEdges ++ repStartEdges)).trace
      = [BusEv.hasDev a1 true, BusEv.start a1] ∧
    (i2c_gpio_run env initSim
        (startEdges ++ byteEdges (2 * a1) ++ ackEdges ++ repStartEdges
          ++ byteEdges (2 * a2) ++ ackEdges ++ stopEdges)).trace
      = [BusEv.hasDev a1 true, BusEv.start a1, BusEv.hasDev a2 true, BusEv.stop a2] := by
  have hmid : i2c_gpio_run env initSim
      (startEdges ++ byteEdges (2 * a1) ++ ackEdges ++ repStartEdges)
      = ⟨⟨1, 1, 1, 0, a1, 0, 0, 0, 2, 2 * a1 * 2 % 256 + 1⟩,
         [BusEv.hasDev a1 true, BusEv.start a1], 0⟩ := by
    rw [show initSim = ⟨⟨1, 1, 0, 0, 255, 0, 0, 0, 0, 0⟩, [], 0⟩ from rfl]
    rw [i2c_gpio_run_append, i2c_gpio_run_append, i2c_gpio_run_append]
    rw [start_step env [] 0 1 0 255 0 0 0 0 0]
    rw [recv_addr_write_new env [] 0 1 1 0 a1 0 0 0 (Or.inl rfl) h1 hd1]
    simp only [List.nil_append]
    rw [ack_step env [BusEv.hasDev a1 true, BusEv.start a1] 0 0 1 a1 0 0 8 2 (2 * a1)]
    norm_num
    rw [repstart_step env [BusEv.hasDev a1 true, BusEv.start a1] 0 0 1 a1 0 2 (2 * a1)]
  refine ⟨by rw [hmid], by rw [hmid], by rw [hmid], ?_⟩
  rw [show startEdges ++ byteEdges (2 * a1) ++ ackEdges ++ repStartEdges
        ++ byteEdges (2 * a2) ++ ackEdges ++ stopEdges
      = (startEdges ++ byteEdges (2 * a1) ++ ackEdges ++ repStartEdges)
        ++ byteEdges (2 * a2) ++ ackEdges ++ stopEdges by simp]
  rw [i2c_gpio_run_append, i2c_gpio_run_append, i2c_gpio_run_append, hmid]
  rw [recv_addr_write_rep env [BusEv.hasDev a1 true, BusEv.start a1] 0 1 1 0 a1 a2 0 2
        (2 * a1 * 2 % 256 + 1) (Or.inl rfl) h1 h2 hd2]
  rw [ack_step env ([BusEv.hasDev a1 true, BusEv.start a1] ++ [BusEv.hasDev a2 true]) 0
        0 1 a2 0 0 8 2 (2 * a2)]
  norm_num
  rw [stop_step env ([BusEv.hasDev a1 true, BusEv.start a1, BusEv.hasDev a2 true]) 0
        0 1 a2 0 2 (2 * a2) h2]
  simp

/-- Witness for the amended C3 at a concrete input: addresses 0x10, 0x20. -/
theorem c3_repeated_start_witness :
    16 ≤ 127 ∧ 32 ≤ 127 ∧ envAll.hasDevice 16 = true ∧ envAll.hasDevice 32 = true ∧
    (i2c_gpio_run envAll initSim
        (startEdges ++ byteEdges (2 * 16) ++ ackEdges ++ repStartEdges
          ++ byteEdges (2 * 32) ++ ackEdges ++ stopEdges)).trace
      = [BusEv.hasDev 16 true, BusEv.start 16, BusEv.hasDev 32 true, BusEv.stop 32] :=
  ⟨by norm_num, by norm_num, rfl, rfl,
   (c3_repeated_start envAll 16 32 (by norm_num) (by norm_num) rfl rfl).2.2.2⟩

/-- The payload loop with the byte state SLAVE_INVALID (absent device) and
the driver in the relaying role: every completed byte is silently dropped —
no directory call, no state change beyond the shift register. -/
theorem invalid_loop (env : I2cBus) (A : Nat) :
    ∀ (bytes : List Nat) (t : List BusEv) (n rw B : Nat),
      (∀ b ∈ bytes, b ≤ 255) →
      ∃ B', i2c_gpio_run env ⟨⟨1, 0, 2, 4, A, rw, 0, 0, 2, B⟩, t, n⟩ (dataBlocks bytes)
          = ⟨⟨1, 0, 2, 4, A, rw, 0, 0, 2, B'⟩, t, n⟩ := by
  intro bytes
  induction bytes with
  | nil =>
      intro t n rw B _
      exact ⟨B, by simp [dataBlocks]⟩
  | cons b bs ih =>
      intro t n rw B hb
      have hmem : b ≤ 255 := hb b (by simp)
      have hbs : ∀ x ∈ bs, x ≤ 255 := fun x hx => hb x (by simp [hx])
      obtain ⟨B', hrun⟩ := ih t n rw b hbs
      refine ⟨B', ?_⟩
      rw [show dataBlocks (b :: bs) = byteEdges b ++ (ackEdges ++ dataBlocks bs) by
            simp [dataBlocks]]
      rw [i2c_gpio_run_append, i2c_gpio_run_append]
      rw [recv_invalid_byte env t n 0 2 rw A 0 2 B b (Or.inr rfl) hmem]
      rw [ack_step env t n (byteBit b 0) 4 A rw (byteBit b 0) 8 2 b]
      norm_num
      rw [hrun]

/-- Shared shape of the configuration after the stem (start + absent
address byte + acknowledge pulse) of a write transaction to an unregistered
address, launched from a relaying-role idle configuration. -/
theorem absent_stem (env : I2cBus) (A : Nat) (d r0 l p B : Nat) (t : List BusEv) (n : Nat)
    (hA : A ≤ 127) (hdev : env.hasDevice A = false) :
    i2c_gpio_run env ⟨⟨1, d, 0, 0, 255, r0, l, p, 2, B⟩, t, n⟩
        (startEdges ++ byteEdges (2 * A) ++ ackEdges)
      = ⟨⟨1, 0, 2, 4, A, 0, 0, 0, 2, 2 * A⟩, t ++ [BusEv.hasDev A false], n⟩ := by
  rw [i2c_gpio_run_append, i2c_gpio_run_append]
  rw [start_step env t n d 0 255 r0 l p 2 B]
  rw [recv_addr_absent env t n d 1 r0 255 A 0 2 B (Or.inl rfl) hA hdev]
  rw [ack_step env (t ++ [BusEv.hasDev A false]) n 0 4 A 0 0 8 2 (2 * A)]
  norm_num

/-- Claim C5 (amended): for a transaction whose address byte names an
unregistered address, launched with the driver field in the relaying role
(`transmit = TRANSMITTER_MASTER`, as after any previously completed
transaction — but NOT right after `i2c_gpio_init`, which leaves
`transmit = 0`): the engine makes zero `i2c_start`/`i2c_read`/`i2c_write`
calls, silently discards every completed data byte, keeps the byte state
SLAVE_INVALID at every data-byte boundary, and the stop condition closes
the transaction (issuing `i2c_stop`, cf. C9) resetting the byte state to
SLAVE_IDLE and the address to the sentinel. -/
theorem c5_absent_device (env : I2cBus) (A : Nat) (bytes : List Nat)
    (d r0 l p B : Nat) (t : List BusEv) (n : Nat)
    (hA : A ≤ 127) (hbytes : ∀ b ∈ bytes, b ≤ 255) (hdev : env.hasDevice A = false) :
    (i2c_gpio_run env ⟨⟨1, d, 0, 0, 255, r0, l, p, 2, B⟩, t, n⟩ (writeTxEdges A bytes)).trace
        = t ++ [BusEv.hasDev A false, BusEv.stop A] ∧
    (∀ j : Nat, (i2c_gpio_run env ⟨⟨1, d, 0, 0, 255, r0, l, p, 2, B⟩, t, n⟩
        (startEdges ++ byteEdges (2 * A) ++ ackEdges
          ++ dataBlocks (bytes.take j))).dev.slave_state = 4) ∧
    (i2c_gpio_run env ⟨⟨1, d, 0, 0, 255, r0, l, p, 2, B⟩, t, n⟩
        (writeTxEdges A bytes)).dev.slave_state = 0 ∧
    (i2c_gpio_run env ⟨⟨1, d, 0, 0, 255, r0, l, p, 2, B⟩, t, n⟩
        (writeTxEdges A bytes)).dev.slave_addr = 255 := by
  obtain ⟨B', hloop⟩ := invalid_loop env A bytes (t ++ [BusEv.hasDev A false]) n 0 (2 * A) hbytes
  have hfull : i2c_gpio_run env ⟨⟨1, d, 0, 0, 255, r0, l, p, 2, B⟩, t, n⟩ (writeTxEdges A bytes)
      = ⟨⟨1, 0, 0, 0, 255, 0, 1, 1, 2, B' * 2 % 256⟩,
         t ++ [BusEv.hasDev A false, BusEv.stop A], n⟩ := by
    rw [show writeTxEdges A bytes
          = (startEdges ++ byteEdges (2 * A) ++ ackEdges) ++ dataBlocks bytes ++ stopEdges by
        simp [writeTxEdges]]
    rw [i2c_gpio_run_append, i2c_gpio_run_append]
    rw [absent_stem env A d r0 l p B t n hA hdev, hloop]
    rw [stop_step env (t ++ [BusEv.hasDev A false]) n 0 4 A 0 2 B' hA]
    simp
  refine ⟨by rw [hfull], ?_, by rw [hfull], by rw [hfull]⟩
  intro j
  obtain ⟨B'', hloop'⟩ := invalid_loop env A (bytes.take j) (t ++ [BusEv.hasDev A false]) n 0
      (2 * A) (fun x hx => hbytes x (List.take_subset _ _ hx))
  rw [show startEdges ++ byteEdges (2 * A) ++ ackEdges ++ dataBlocks (bytes.take j)
        = (startEdges ++ byteEdges (2 * A) ++ ackEdges) ++ dataBlocks (bytes.take j) by simp]
  rw [i2c_gpio_run_append, absent_stem env A d r0 l p B t n hA hdev, hloop']

/-- Witness for the amended C5: absent address 0x21, two data bytes, from a
relaying-role idle configuration. -/
theorem c5_absent_device_witness :
    33 ≤ 127 ∧ (∀ b ∈ [5, 6], b ≤ 255) ∧ envNone.hasDevice 33 = false ∧
    (i2c_gpio_run envNone ⟨⟨1, 1, 0, 0, 255, 0, 0, 1, 2, 7⟩, [], 0⟩
        (writeTxEdges 33 [5, 6])).trace = [] ++ [BusEv.hasDev 33 false, BusEv.stop 33] :=
  ⟨by norm_num, by decide, rfl,
   (c5_absent_device envNone 33 [5, 6] 1 0 0 1 7 [] 0 (by norm_num) (by decide) rfl).1⟩

set_option maxRecDepth 10000 in
/-- Claim C5, counterexample: on the very first transaction after
`i2c_gpio_init` the driver field is still 0 (neither role), so after the
absent-address byte the acknowledge edge sends the wire state to
I2C_TRANSMIT; after one data byte and its acknowledge pulse the engine has
taken the ninth rising edge as a not-acknowledge, called `i2c_gpio_stop`,
and reset the byte state to SLAVE_IDLE (0), NOT SLAVE_INVALID (4) — even
though no start (or wire stop) condition followed the address byte. -/
theorem c5_counterexample :
    (i2c_gpio_run envNone initSim
        (startEdges ++ byteEdges 66 ++ ackEdges ++ dataBlocks [0])).dev.slave_state = 0 ∧
    BusEv.stop 33 ∈ (i2c_gpio_run envNone initSim
        (startEdges ++ byteEdges 66 ++ ackEdges ++ dataBlocks [0])).trace := by
  decide

set_option maxRecDepth 10000 in
/-- Claim C9, counterexample: from a fresh `i2c_gpio_init` (driver field
still 0), an absent-address transaction followed by a wire stop condition
produces NO `i2c_stop` call at all — the acknowledge edge sent the engine
into I2C_TRANSMIT, where the stop condition is not recognised.  The claim's
"a subsequent stop condition still invokes endTransaction" fails here. -/
theorem c9_counterexample :
    (i2c_gpio_run envNone initSim (writeTxEdges 33 [])).trace = [BusEv.hasDev 33 false] ∧
    BusEv.stop 33 ∉ (i2c_gpio_run envNone initSim (writeTxEdges 33 [])).trace := by
  decide

/-- Claim C9 (amended): when the driver field is in the relaying role (as
after any previously completed transaction), an address byte naming an
unregistered address leaves `slave_addr` pointing at that absent address
(it is overwritten before the `i2c_has_device` check), so the following
stop condition issues `i2c_stop` for the absent address: the directory
observes an `i2c_stop` with no matching `i2c_start` — the trace gains one
endTransaction and zero beginTransactions. -/
theorem c9_end_without_begin (env : I2cBus) (A : Nat)
    (d r0 l p B : Nat) (t : List BusEv) (n : Nat)
    (hA : A ≤ 127) (hdev : env.hasDevice A = false) :
    (i2c_gpio_run env ⟨⟨1, d, 0, 0, 255, r0, l, p, 2, B⟩, t, n⟩ (writeTxEdges A [])).trace
        = t ++ [BusEv.hasDev A false, BusEv.stop A] ∧
    countStart (i2c_gpio_run env ⟨⟨1, d, 0, 0, 255, r0, l, p, 2, B⟩, t, n⟩
        (writeTxEdges A [])).trace = countStart t ∧
    countStop (i2c_gpio_run env ⟨⟨1, d, 0, 0, 255, r0, l, p, 2, B⟩, t, n⟩
        (writeTxEdges A [])).trace = countStop t + 1 := by
  have hfull : i2c_gpio_run env ⟨⟨1, d, 0, 0, 255, r0, l, p, 2, B⟩, t, n⟩ (writeTxEdges A [])
      = ⟨⟨1, 0, 0, 0, 255, 0, 1, 1, 2, 2 * A * 2 % 256⟩,
         t ++ [BusEv.hasDev A false, BusEv.stop A], n⟩ := by
    rw [show writeTxEdges A []
          = (startEdges ++ byteEdges (2 * A) ++ ackEdges) ++ stopEdges by
        simp [writeTxEdges, dataBlocks]]
    rw [i2c_gpio_run_append]
    rw [absent_stem env A d r0 l p B t n hA hdev]
    rw [stop_step env (t ++ [BusEv.hasDev A false]) n 0 4 A 0 2 (2 * A) hA]
    simp
  rw [hfull]
  refine ⟨rfl, ?_, ?_⟩ <;>
    simp [countStart, countStop, List.countP_append, List.countP_cons]

/-- Witness for the amended C9: absent address 0x21 from a relaying-role
idle configuration with an empty history. -/
theorem c9_end_without_begin_witness :
    33 ≤ 127 ∧ envNone.hasDevice 33 = false ∧
    ((i2c_gpio_run envNone ⟨⟨1, 1, 0, 0, 255, 0, 0, 1, 2, 7⟩, [], 0⟩
        (writeTxEdges 33 [])).trace = [] ++ [BusEv.hasDev 33 false, BusEv.stop 33] ∧
     countStart (i2c_gpio_run envNone ⟨⟨1, 1, 0, 0, 255, 0, 0, 1, 2, 7⟩, [], 0⟩
        (writeTxEdges 33 [])).trace = countStart [] ∧
     countStop (i2c_gpio_run envNone ⟨⟨1, 1, 0, 0, 255, 0, 0, 1, 2, 7⟩, [], 0⟩
        (writeTxEdges 33 [])).trace = countStop [] + 1) :=
  ⟨by norm_num, rfl, c9_end_without_begin envNone 33 1 0 0 1 7 [] 0 (by norm_num) rfl⟩

/-- Claim C10: `i2c_gpio_init` leaves `last_sda = 0` (the `memset`) even
though both line levels start released (`scl = sda = 1`); consequently,
from IDLE with `last_sda = 0`, NO call — in particular the very first
`i2c_gpio_set` call with the clock high and the data line low — is detected
as a start condition: the wire state stays IDLE and no directory call is
made.  A start can only be detected after some earlier call has sampled the
data line high (making `last_sda` nonzero). -/
theorem c10_first_start_not_detected (env : I2cBus) (m : Sim) (c d : Nat)
    (hstate : m.dev.state = 0) (hlast : m.dev.last_sda = 0) :
    ((i2c_gpio_set env m c d).dev.state = 0 ∧ (i2c_gpio_set env m c d).trace = m.trace) ∧
    i2c_gpio_init.last_sda = 0 ∧ i2c_gpio_init.scl = 1 ∧ i2c_gpio_init.sda = 1 ∧
    i2c_gpio_init.state = 0 := by
  rcases m with ⟨⟨scl, sda, st, ss, A, rw, l, p, tr, B⟩, t, n⟩
  simp only at hstate hlast
  subst hstate
  subst hlast
  refine ⟨⟨?_, ?_⟩, rfl, rfl, rfl, rfl⟩ <;>
    (simp [i2c_gpio_set, finishSet]; try (split_ifs <;> rfl))

/-- Witness for C10: the first call after init with clock high, data low. -/
theorem c10_first_start_not_detected_witness :
    initSim.dev.state = 0 ∧ initSim.dev.last_sda = 0 ∧
    ((i2c_gpio_set envAll initSim 1 0).dev.state = 0 ∧
      (i2c_gpio_set envAll initSim 1 0).trace = initSim.trace) ∧
    i2c_gpio_init.last_sda = 0 ∧ i2c_gpio_init.scl = 1 ∧ i2c_gpio_init.sda = 1 ∧
    i2c_gpio_init.state = 0 :=
  ⟨rfl, rfl, (c10_first_start_not_detected envAll initSim 1 0 rfl rfl).1,
   rfl, rfl, rfl, rfl⟩

/-- Claim C8: a call whose clock level equals the cached `scl` and whose
data level equals the cached `last_sda` is a complete no-op: every field is
unchanged (the trailing caching step rewrites `last_sda` and `scl` with the
identical values) and no directory call is made. -/
theorem c8_idempotent_levels (env : I2cBus) (m : Sim) (c d : Nat)
    (hc : c = m.dev.scl) (hd : d = m.dev.last_sda) :
    i2c_gpio_set env m c d = m := by
  rcases m with ⟨⟨scl, sda, st, ss, A, rw, l, p, tr, B⟩, t, n⟩
  simp only at hc hd
  subst hc
  subst hd
  rcases Nat.eq_zero_or_pos c with h0 | hpos
  · subst h0
    rcases Nat.eq_zero_or_pos d with hl | hl
    · subst hl
      rcases st with _ | _ | _ | _ | _ | _ | _ | _ | st <;>
        simp [i2c_gpio_set, receiveBody, transmitBody, finishSet]
    · have hl' : d ≠ 0 := hl.ne'
      rcases st with _ | _ | _ | _ | _ | _ | _ | _ | st <;>
        simp [i2c_gpio_set, receiveBody, transmitBody, finishSet, hl']
  · have hc' : c ≠ 0 := hpos.ne'
    rcases Nat.eq_zero_or_pos d with hl | hl
    · subst hl
      rcases st with _ | _ | _ | _ | _ | _ | _ | _ | st <;>
        simp [i2c_gpio_set, receiveBody, transmitBody, finishSet, hc']
    · have hl' : d ≠ 0 := hl.ne'
      rcases st with _ | _ | _ | _ | _ | _ | _ | _ | st <;>
        simp [i2c_gpio_set, receiveBody, transmitBody, finishSet, hc', hl']

/-- Witness for C8: repeating the released idle levels after init. -/
theorem c8_idempotent_levels_witness :
    (1 : Nat) = initSim.dev.scl ∧ (0 : Nat) = initSim.dev.last_sda ∧
    i2c_gpio_set envAll initSim 1 0 = initSim :=
  ⟨rfl, rfl, c8_idempotent_levels envAll initSim 1 0 rfl rfl⟩

/-- Every path of `i2c_gpio_set` caches the supplied clock level into
`dev->scl` — including the early-return TRANSMIT path, which updates it
inside the branch before returning. -/
theorem finishSet_scl (m : Sim) (c d : Nat) : (finishSet m c d).dev.scl = c := rfl

/-- `receiveBody` always ends in the caching step. -/
theorem receiveBody_scl (env : I2cBus) (m : Sim) (c d : Nat) :
    (receiveBody env m c d).dev.scl = c := by
  simp only [receiveBody]
  split_ifs <;> rfl

/-- `transmitBody` caches the clock on every path. -/
theorem transmitBody_scl (m : Sim) (c d : Nat) : (transmitBody m c d).dev.scl = c := by
  simp only [transmitBody]
  split_ifs <;> rfl

/-- `i2c_gpio_set` always leaves `dev->scl` equal to the supplied level. -/
theorem i2c_gpio_set_scl (env : I2cBus) (m : Sim) (c d : Nat) :
    (i2c_gpio_set env m c d).dev.scl = c := by
  rcases m with ⟨⟨scl, sda, st, ss, A, rw, l, p, tr, B⟩, t, n⟩
  rcases st with _ | _ | _ | _ | _ | _ | _ | _ | st <;>
    simp only [i2c_gpio_set] <;>
    first
      | exact finishSet_scl _ _ _
      | exact receiveBody_scl _ _ _ _
      | exact transmitBody_scl _ _ _
      | (split_ifs <;> exact finishSet_scl _ _ _)

/-- Claim C7: `i2c_gpio_get_sda` returns the latched driven level in
TRANSMIT (4) or ACKNOWLEDGE (5), the pulled-low level in RECEIVE_WAIT (2),
and the released high level in every other wire state; `i2c_gpio_get_scl`
returns the cached clock sample, and the engine never drives the clock:
after any `i2c_gpio_set` call the cached clock equals the caller-supplied
level. -/
theorem c7_output_levels (dev : i2c_gpio_t) (env : I2cBus) (m : Sim) (c d : Nat) :
    (dev.state = 4 ∨ dev.state = 5 → i2c_gpio_get_sda dev = dev.sda) ∧
    (dev.state = 2 → i2c_gpio_get_sda dev = 0) ∧
    (dev.state ≠ 2 ∧ dev.state ≠ 4 ∧ dev.state ≠ 5 → i2c_gpio_get_sda dev = 1) ∧
    i2c_gpio_get_scl dev = dev.scl ∧
    (i2c_gpio_set env m c d).dev.scl = c := by
  refine ⟨?_, ?_, ?_, rfl, i2c_gpio_set_scl env m c d⟩
  · intro h
    simp [i2c_gpio_get_sda, h]
  · intro h
    rw [i2c_gpio_get_sda, if_neg (by omega), if_pos h]
  · rintro ⟨h2, h4, h5⟩
    rw [i2c_gpio_get_sda, if_neg (by tauto), if_neg h2]

/-- Witness for C7: a TRANSMIT-state device with a driven level, plus the
clock-caching fact after one concrete call. -/
theorem c7_output_levels_witness :
    ((⟨0, 128, 4, 3, 81, 1, 1, 3, 1, 16⟩ : i2c_gpio_t).state = 4 ∨
      (⟨0, 128, 4, 3, 81, 1, 1, 3, 1, 16⟩ : i2c_gpio_t).state = 5) ∧
    i2c_gpio_get_sda ⟨0, 128, 4, 3, 81, 1, 1, 3, 1, 16⟩ = 128 ∧
    i2c_gpio_get_scl ⟨0, 128, 4, 3, 81, 1, 1, 3, 1, 16⟩ = 0 ∧
    (i2c_gpio_set envAll initSim 1 0).dev.scl = 1 :=
  ⟨Or.inl rfl,
   (c7_output_levels ⟨0, 128, 4, 3, 81, 1, 1, 3, 1, 16⟩ envAll initSim 1 0).1 (Or.inl rfl),
   (c7_output_levels ⟨0, 128, 4, 3, 81, 1, 1, 3, 1, 16⟩ envAll initSim 1 0).2.2.2.1,
   (c7_output_levels ⟨0, 128, 4, 3, 81, 1, 1, 3, 1, 16⟩ envAll initSim 1 0).2.2.2.2⟩

/-! ## Transaction-balance invariant (claim C6) -/

@[simp]
theorem countStart_append (t1 t2 : List BusEv) :
    countStart (t1 ++ t2) = countStart t1 + countStart t2 := by
  simp [countStart, List.countP_append]

@[simp]
theorem countStop_append (t1 t2 : List BusEv) :
    countStop (t1 ++ t2) = countStop t1 + countStop t2 := by
  simp [countStop, List.countP_append]

@[simp]
theorem countStart_nil : countStart [] = 0 := rfl

@[simp]
theorem countStop_nil : countStop [] = 0 := rfl

@[simp]
theorem countStart_cons_start (a : Nat) (t : List BusEv) :
    countStart (BusEv.start a :: t) = countStart t + 1 := by
  simp [countStart, List.countP_cons]

@[simp]
theorem countStart_cons_stop (a : Nat) (t : List BusEv) :
    countStart (BusEv.stop a :: t) = countStart t := by
  simp [countStart, List.countP_cons]

@[simp]
theorem countStart_cons_rd (a v : Nat) (t : List BusEv) :
    countStart (BusEv.rd a v :: t) = countStart t := by
  simp [countStart, List.countP_cons]

@[simp]
theorem countStart_cons_wr (a v : Nat) (t : List BusEv) :
    countStart (BusEv.wr a v :: t) = countStart t := by
  simp [countStart, List.countP_cons]

@[simp]
theorem countStart_cons_hasDev (a : Nat) (r : Bool) (t : List BusEv) :
    countStart (BusEv.hasDev a r :: t) = countStart t := by
  simp [countStart, List.countP_cons]

@[simp]
theorem countStop_cons_start (a : Nat) (t : List BusEv) :
    countStop (BusEv.start a :: t) = countStop t := by
  simp [countStop, List.countP_cons]

@[simp]
theorem countStop_cons_stop (a : Nat) (t : List BusEv) :
    countStop (BusEv.stop a :: t) = countStop t + 1 := by
  simp [countStop, List.countP_cons]

@[simp]
theorem countStop_cons_rd (a v : Nat) (t : List BusEv) :
    countStop (BusEv.rd a v :: t) = countStop t := by
  simp [countStop, List.countP_cons]

@[simp]
theorem countStop_cons_wr (a v : Nat) (t : List BusEv) :
    countStop (BusEv.wr a v :: t) = countStop t := by
  simp [countStop, List.countP_cons]

@[simp]
theorem countStop_cons_hasDev (a : Nat) (r : Bool) (t : List BusEv) :
    countStop (BusEv.hasDev a r :: t) = countStop t := by
  simp [countStop, List.countP_cons]

/-- The invariant tying `slave_addr` to the balance of `i2c_start` and
`i2c_stop` events: the sentinel is latched exactly when the trace is
balanced, and otherwise exactly one transaction is open.  The byte bound is
needed because the address is extracted from the shift register. -/
def txInv (m : Sim) : Prop :=
  m.dev.byte ≤ 255 ∧
  ((m.dev.slave_addr = 255 ∧ countStart m.trace = countStop m.trace) ∨
   (m.dev.slave_addr ≠ 255 ∧ countStart m.trace = countStop m.trace + 1))

/-- Configurations agreeing on byte, address and trace share the invariant. -/
theorem txInv_of_eqs {m m' : Sim} (hb : m'.dev.byte = m.dev.byte)
    (ha : m'.dev.slave_addr = m.dev.slave_addr) (ht : m'.trace = m.trace)
    (h : txInv m) : txInv m' := by
  unfold txInv at *
  rw [hb, ha, ht]
  exact h

/-- `i2c_gpio_stop` restores the sentinel and balances the trace. -/
theorem txInv_stop (m : Sim) (h : txInv m) : txInv (i2c_gpio_stop m) := by
  obtain ⟨hb, hcase⟩ := h
  rcases m with ⟨⟨scl, sda, st, ss, A, rw, l, p, tr, B⟩, t, n⟩
  simp only at hb
  rcases hcase with ⟨ha, hc⟩ | ⟨ha, hc⟩ <;> simp only at ha hc
  · subst ha
    exact ⟨hb, Or.inl ⟨rfl, by simp [i2c_gpio_stop, hc]⟩⟩
  · refine ⟨hb, Or.inl ⟨rfl, ?_⟩⟩
    simp [i2c_gpio_stop, ha, hc]

/-- `i2c_gpio_next_byte` only adds a read event and reloads the register. -/
theorem txInv_next_byte (env : I2cBus) (m : Sim) (h : txInv m) :
    txInv (i2c_gpio_next_byte env m) := by
  obtain ⟨hb, hcase⟩ := h
  rcases m with ⟨⟨scl, sda, st, ss, A, rw, l, p, tr, B⟩, t, n⟩
  refine ⟨by simp [i2c_gpio_next_byte]; omega, ?_⟩
  rcases hcase with ⟨ha, hc⟩ | ⟨ha, hc⟩ <;> simp only at ha hc
  · exact Or.inl ⟨ha, by simp [i2c_gpio_next_byte, hc]⟩
  · exact Or.inr ⟨ha, by simp [i2c_gpio_next_byte, hc]⟩

/-- `i2c_gpio_write` preserves the invariant when every address has a
registered device: `i2c_start` is issued exactly when the trace was
balanced (old address was the sentinel). -/
theorem txInv_write (env : I2cBus) (m : Sim) (hall : ∀ a, env.hasDevice a = true)
    (h : txInv m) : txInv (i2c_gpio_write env m) := by
  obtain ⟨hb, hcase⟩ := h
  rcases m with ⟨⟨scl, sda, st, ss, A, rw, l, p, tr, B⟩, t, n⟩
  simp only at hb
  rcases ss with _ | _ | _ | ss
  · -- SLAVE_IDLE: the address byte
    have hdev := hall (B / 2)
    have haddr : ¬(B / 2 = 255) := by omega
    rcases hcase with ⟨ha, hc⟩ | ⟨ha, hc⟩ <;> simp only at ha hc
    · subst ha
      rcases Nat.eq_zero_or_pos (B % 2) with hrw | hrw
      · refine ⟨?_, Or.inr ⟨?_, ?_⟩⟩ <;>
          simp [i2c_gpio_write, hdev, hrw, haddr, hc, hb]
      · have hrw' : B % 2 ≠ 0 := hrw.ne'
        refine ⟨?_, Or.inr ⟨?_, ?_⟩⟩ <;>
          simp [i2c_gpio_write, hdev, hrw', haddr, hc] <;> omega
    · rcases Nat.eq_zero_or_pos (B % 2) with hrw | hrw
      · refine ⟨?_, Or.inr ⟨?_, ?_⟩⟩ <;>
          simp [i2c_gpio_write, hdev, hrw, haddr, hc, hb, ha]
      · have hrw' : B % 2 ≠ 0 := hrw.ne'
        refine ⟨?_, Or.inr ⟨?_, ?_⟩⟩ <;>
          simp [i2c_gpio_write, hdev, hrw', haddr, hc, ha] <;> omega
  · -- SLAVE_RECEIVEADDR
    refine ⟨by simpa [i2c_gpio_write] using hb, ?_⟩
    rcases hcase with ⟨ha, hc⟩ | ⟨ha, hc⟩ <;> simp only at ha hc
    · exact Or.inl ⟨ha, by simp [i2c_gpio_write, hc]⟩
    · exact Or.inr ⟨ha, by simp [i2c_gpio_write, hc]⟩
  · -- SLAVE_RECEIVEDATA
    refine ⟨by simpa [i2c_gpio_write] using hb, ?_⟩
    rcases hcase with ⟨ha, hc⟩ | ⟨ha, hc⟩ <;> simp only at ha hc
    · exact Or.inl ⟨ha, by simp [i2c_gpio_write, hc]⟩
    · exact Or.inr ⟨ha, by simp [i2c_gpio_write, hc]⟩
  · -- SLAVE_SENDDATA / SLAVE_INVALID: no-op
    exact ⟨hb, by rcases hcase with ⟨ha, hc⟩ | ⟨ha, hc⟩ <;>
      [exact Or.inl ⟨ha, hc⟩; exact Or.inr ⟨ha, hc⟩]⟩

/-- The caching step never touches byte, address or trace. -/
theorem txInv_finishSet (m : Sim) (c d : Nat) (h : txInv m) : txInv (finishSet m c d) := by
  refine txInv_of_eqs ?_ ?_ ?_ h <;>
    (simp only [finishSet]; try first | rfl | (split_ifs <;> rfl))

/-- The shifted-in byte stays within a byte. -/
theorem shiftIn_le (B d : Nat) :
    (if d ≠ 0 then B * 2 % 256 ||| 1 else B * 2 % 256 &&& 254) ≤ 255 := by
  have h2 : B * 2 % 256 = 2 * (B % 128) := by omega
  have hk : B % 128 < 128 := Nat.mod_lt _ (by norm_num)
  have hor : ∀ k < 128, 2 * k ||| 1 = 2 * k + 1 := by decide
  have hand : ∀ k < 128, 2 * k &&& 254 = 2 * k := by decide
  split_ifs <;> rw [h2]
  · rw [hor _ hk]
    omega
  · rw [hand _ hk]
    omega

/-- Shift-register bounds for the two shift-in branches. -/
theorem lor_one_le (B : Nat) : B * 2 % 256 ||| 1 ≤ 255 := by
  have h := shiftIn_le B 1
  simpa using h

/-- The and-mask branch stays within a byte as well. -/
theorem land_fe_le (B : Nat) : B * 2 % 256 &&& 254 ≤ 255 := by
  have h := shiftIn_le B 0
  simpa using h

/-- `transmitBody` preserves the invariant. -/
theorem txInv_transmitBody (m : Sim) (c d : Nat) (h : txInv m) :
    txInv (transmitBody m c d) := by
  obtain ⟨hb, hcase⟩ := h
  rcases m with ⟨⟨scl, sda, st, ss, A, rw, l, p, tr, B⟩, t, n⟩
  simp only at hb
  simp only [transmitBody]
  split_ifs
  · exact ⟨by show B * 2 % 256 ≤ 255; omega, hcase⟩
  · exact txInv_finishSet _ c d ⟨hb, hcase⟩
  · exact txInv_finishSet _ c d ⟨hb, hcase⟩

/-- `receiveBody` preserves the invariant when every address is present. -/
theorem txInv_receiveBody (env : I2cBus) (m : Sim) (c d : Nat)
    (hall : ∀ a, env.hasDevice a = true) (h : txInv m) :
    txInv (receiveBody env m c d) := by
  obtain ⟨hb, hcase⟩ := h
  rcases m with ⟨⟨scl, sda, st, ss, A, rw, l, p, tr, B⟩, t, n⟩
  simp only at hb
  simp only [receiveBody]
  split_ifs <;>
    first
      | exact txInv_finishSet _ c d
          (txInv_of_eqs rfl rfl rfl (txInv_write env _ hall ⟨lor_one_le B, hcase⟩))
      | exact txInv_finishSet _ c d
          (txInv_of_eqs rfl rfl rfl (txInv_write env _ hall ⟨land_fe_le B, hcase⟩))
      | exact txInv_finishSet _ c d ⟨lor_one_le B, hcase⟩
      | exact txInv_finishSet _ c d ⟨land_fe_le B, hcase⟩
      | exact txInv_finishSet _ c d (txInv_stop _ ⟨hb, hcase⟩)
      | exact txInv_finishSet _ c d ⟨hb, hcase⟩

/-- `i2c_gpio_set` preserves the invariant when every address is present. -/
theorem txInv_set (env : I2cBus) (m : Sim) (c d : Nat)
    (hall : ∀ a, env.hasDevice a = true) (h : txInv m) :
    txInv (i2c_gpio_set env m c d) := by
  have hcopy := h
  obtain ⟨hb, hcase⟩ := hcopy
  rcases m with ⟨⟨scl, sda, st, ss, A, rw, l, p, tr, B⟩, t, n⟩
  simp only at hb
  rcases st with _ | _ | _ | _ | _ | _ | _ | _ | st <;>
    simp only [i2c_gpio_set] <;>
    (try split_ifs) <;>
    first
      | exact txInv_receiveBody env _ c d hall ⟨hb, hcase⟩
      | exact txInv_transmitBody _ c d (txInv_stop _ ⟨hb, hcase⟩)
      | exact txInv_transmitBody _ c d ⟨hb, hcase⟩
      | exact txInv_finishSet _ c d (txInv_stop _ ⟨hb, hcase⟩)
      | exact txInv_finishSet _ c 0 ⟨hb, hcase⟩
      | exact txInv_finishSet _ c d
          (txInv_of_eqs rfl rfl rfl (txInv_next_byte env _ ⟨hb, hcase⟩))
      | exact txInv_finishSet _ c d ⟨hb, hcase⟩

/-- The invariant holds in every configuration reachable from `initSim`
under an environment where every address is registered. -/
theorem txInv_run (env : I2cBus) (hall : ∀ a, env.hasDevice a = true) :
    ∀ (edges : List (Nat × Nat)) (m : Sim), txInv m →
      txInv (i2c_gpio_run env m edges) := by
  intro edges
  induction edges with
  | nil => exact fun m h => h
  | cons e es ih => exact fun m h => ih _ (txInv_set env m e.1 e.2 hall h)

set_option maxRecDepth 10000 in
/-- Claim C6, counterexample: run start + address byte 0x42 (address 0x21)
against a bus with no devices.  The reached configuration has
`slave_addr = 0x21 ≠ 0xff` while the trace holds zero `i2c_start` and zero
`i2c_stop` events (no transaction is open), refuting the claimed
equivalence: `slave_addr` is overwritten before the `i2c_has_device`
check. -/
theorem c6_counterexample :
    ¬(((i2c_gpio_run envNone initSim (startEdges ++ byteEdges 66)).dev.slave_addr = 255) ↔
      countStart (i2c_gpio_run envNone initSim (startEdges ++ byteEdges 66)).trace
        = countStop (i2c_gpio_run envNone initSim (startEdges ++ byteEdges 66)).trace) := by
  decide

/-- Claim C6 (amended): under an environment in which every address has a
registered device, in every configuration reachable from `initSim` by
`i2c_gpio_set` calls, `slave_addr` equals the 0xff sentinel exactly when
the trace is balanced (`i2c_start` and `i2c_stop` counts are equal, i.e. no
transaction is open); when it differs exactly one transaction is open. -/
theorem c6_sentinel_iff_balanced (env : I2cBus) (edges : List (Nat × Nat))
    (hall : ∀ a, env.hasDevice a = true) :
    ((i2c_gpio_run env initSim edges).dev.slave_addr = 255 ↔
      countStart (i2c_gpio_run env initSim edges).trace
        = countStop (i2c_gpio_run env initSim edges).trace) := by
  have hinv : txInv (i2c_gpio_run env initSim edges) :=
    txInv_run env hall edges initSim ⟨by show (0 : Nat) ≤ 255; omega, Or.inl ⟨rfl, rfl⟩⟩
  obtain ⟨-, ⟨ha, hc⟩ | ⟨ha, hc⟩⟩ := hinv
  · exact ⟨fun _ => hc, fun _ => ha⟩
  · exact ⟨fun h => absurd h ha, fun h => by omega⟩

/-- Witness for the amended C6: a complete write transaction on a
fully-populated bus leaves the sentinel latched and the trace balanced. -/
theorem c6_sentinel_iff_balanced_witness :
    ((i2c_gpio_run envAll initSim (writeTxEdges 16 [7])).dev.slave_addr = 255 ↔
      countStart (i2c_gpio_run envAll initSim (writeTxEdges 16 [7])).trace
        = countStop (i2c_gpio_run envAll initSim (writeTxEdges 16 [7])).trace) :=
  c6_sentinel_iff_balanced envAll (writeTxEdges 16 [7]) (fun _ => rfl)

/-! ## Read-direction (transmit) transaction lemmas (claim C2) -/

/-- One transmitted bit: clock falls (released data), then on the rising
edge the engine drives the current most-significant bit of the shift
register and returns early. -/
theorem tx_bit (env : I2cBus) (t : List BusEv) (n : Nat)
    (s st ss A rw l p tr R : Nat) (hst : st = 3 ∨ st = 4) (hp : p ≤ 7) :
    i2c_gpio_run env ⟨⟨1, s, st, ss, A, rw, l, p, tr, R⟩, t, n⟩ [(0, 1), (1, 1)]
      = ⟨⟨1, R &&& 128, 4, ss, A, rw, 1, p + 1, tr, R * 2 % 256⟩, t, n⟩ := by
  have h8 : ¬(p = 8) := by omega
  have h256 : (p + 1) % 256 = p + 1 := by omega
  rcases hst with h | h <;> subst h <;>
    simp [i2c_gpio_set, transmitBody, finishSet, h8, h256]

/-- The falling edge after the eighth transmitted bit enters
I2C_TRANSACKNOWLEDGE. -/
theorem tx_end (env : I2cBus) (t : List BusEv) (n : Nat) (s ss A rw l tr R : Nat) :
    i2c_gpio_run env ⟨⟨1, s, 4, ss, A, rw, l, 8, tr, R⟩, t, n⟩ [(0, 1)]
      = ⟨⟨0, s, 6, ss, A, rw, 1, 8, tr, R⟩, t, n⟩ := by
  simp [i2c_gpio_set, transmitBody, finishSet]

/-- The master acknowledges (data low on the ninth rising edge): the next
outbound byte is fetched via `i2c_read` and the engine prepares
I2C_TRANSMIT_START. -/
theorem tx_ack (env : I2cBus) (t : List BusEv) (n : Nat) (s ss A rw l p tr R : Nat) :
    i2c_gpio_run env ⟨⟨0, s, 6, ss, A, rw, l, p, tr, R⟩, t, n⟩ [(1, 0)]
      = ⟨⟨1, 0, 3, ss, A, rw, 0, 0, tr, env.readVal n A % 256⟩,
         t ++ [BusEv.rd A (env.readVal n A % 256)], n + 1⟩ := by
  simp [i2c_gpio_set, i2c_gpio_next_byte, finishSet]

/-- The master declines to acknowledge (data high on the ninth rising
edge): the transfer ends, `i2c_stop` is issued for the latched address. -/
theorem tx_nak (env : I2cBus) (t : List BusEv) (n : Nat) (s ss A rw l p tr R : Nat)
    (hA : A ≤ 127) :
    i2c_gpio_run env ⟨⟨0, s, 6, ss, A, rw, l, p, tr, R⟩, t, n⟩ [(1, 1)]
      = ⟨⟨1, 1, 0, 0, 255, rw, 1, p, 2, R⟩, t ++ [BusEv.stop A], n⟩ := by
  have hAne : ¬(A = 255) := by omega
  simp [i2c_gpio_set, i2c_gpio_stop, finishSet, hAne]

/-- One fully transmitted and master-acknowledged byte: the outbound byte is
shifted out bit by bit, then the acknowledge fetches the next byte via
`i2c_read`. -/
theorem tx_block_ack (env : I2cBus) (t : List BusEv) (n : Nat)
    (s st ss A rw l tr R : Nat) (hst : st = 3 ∨ st = 4) :
    i2c_gpio_run env ⟨⟨1, s, st, ss, A, rw, l, 0, tr, R⟩, t, n⟩ (txBlock false)
      = ⟨⟨1, 0, 3, ss, A, rw, 0, 0, tr, env.readVal n A % 256⟩,
         t ++ [BusEv.rd A (env.readVal n A % 256)], n + 1⟩ := by
  rw [show txBlock false
      = [(0,1),(1,1)] ++ ([(0,1),(1,1)] ++ ([(0,1),(1,1)] ++ ([(0,1),(1,1)]
        ++ ([(0,1),(1,1)] ++ ([(0,1),(1,1)] ++ ([(0,1),(1,1)] ++ ([(0,1),(1,1)]
        ++ ([(0,1)] ++ [(1, 0)])))))))) from rfl]
  simp only [i2c_gpio_run_append]
  rw [tx_bit env t n s st ss A rw l 0 tr R hst (by omega)]
  rw [tx_bit env t n _ _ _ _ _ _ _ _ _ (Or.inr rfl) (by omega)]
  rw [tx_bit env t n _ _ _ _ _ _ _ _ _ (Or.inr rfl) (by omega)]
  rw [tx_bit env t n _ _ _ _ _ _ _ _ _ (Or.inr rfl) (by omega)]
  rw [tx_bit env t n _ _ _ _ _ _ _ _ _ (Or.inr rfl) (by omega)]
  rw [tx_bit env t n _ _ _ _ _ _ _ _ _ (Or.inr rfl) (by omega)]
  rw [tx_bit env t n _ _ _ _ _ _ _ _ _ (Or.inr rfl) (by omega)]
  rw [tx_bit env t n _ _ _ _ _ _ _ _ _ (Or.inr rfl) (by omega)]
  rw [tx_end env t n _ ss A rw 1 tr _]
  rw [tx_ack env t n _ ss A rw 1 8 tr _]

/-- One transmitted byte ended by the master's not-acknowledge: the
transfer closes with `i2c_stop`. -/
theorem tx_block_nak (env : I2cBus) (t : List BusEv) (n : Nat)
    (s st ss A rw l tr R : Nat) (hst : st = 3 ∨ st = 4) (hA : A ≤ 127) :
    ∃ B', i2c_gpio_run env ⟨⟨1, s, st, ss, A, rw, l, 0, tr, R⟩, t, n⟩ (txBlock true)
      = ⟨⟨1, 1, 0, 0, 255, rw, 1, 8, 2, B'⟩, t ++ [BusEv.stop A], n⟩ := by
  refine ⟨R * 2 % 256 * 2 % 256 * 2 % 256 * 2 % 256 * 2 % 256 * 2 % 256 * 2 % 256 * 2 % 256, ?_⟩
  rw [show txBlock true
      = [(0,1),(1,1)] ++ ([(0,1),(1,1)] ++ ([(0,1),(1,1)] ++ ([(0,1),(1,1)]
        ++ ([(0,1),(1,1)] ++ ([(0,1),(1,1)] ++ ([(0,1),(1,1)] ++ ([(0,1),(1,1)]
        ++ ([(0,1)] ++ [(1, 1)])))))))) from rfl]
  simp only [i2c_gpio_run_append]
  rw [tx_bit env t n s st ss A rw l 0 tr R hst (by omega)]
  rw [tx_bit env t n _ _ _ _ _ _ _ _ _ (Or.inr rfl) (by omega)]
  rw [tx_bit env t n _ _ _ _ _ _ _ _ _ (Or.inr rfl) (by omega)]
  rw [tx_bit env t n _ _ _ _ _ _ _ _ _ (Or.inr rfl) (by omega)]
  rw [tx_bit env t n _ _ _ _ _ _ _ _ _ (Or.inr rfl) (by omega)]
  rw [tx_bit env t n _ _ _ _ _ _ _ _ _ (Or.inr rfl) (by omega)]
  rw [tx_bit env t n _ _ _ _ _ _ _ _ _ (Or.inr rfl) (by omega)]
  rw [tx_bit env t n _ _ _ _ _ _ _ _ _ (Or.inr rfl) (by omega)]
  rw [tx_end env t n _ ss A rw 1 tr _]
  rw [tx_nak env t n _ ss A rw 1 8 tr _ hA]

/-- All acknowledged blocks are identical, so they can be peeled from
either end. -/
theorem ackBlocks_succ (j : Nat) : ackBlocks (j + 1) = ackBlocks j ++ txBlock false := by
  induction j with
  | zero => simp [ackBlocks]
  | succ j ih =>
      calc ackBlocks (j + 2) = txBlock false ++ ackBlocks (j + 1) := rfl
        _ = txBlock false ++ (ackBlocks j ++ txBlock false) := by rw [ih]
        _ = ackBlocks (j + 1) ++ txBlock false := by
              rw [show ackBlocks (j + 1) = txBlock false ++ ackBlocks j from rfl,
                  List.append_assoc]

/-- Concatenation of acknowledged blocks. -/
theorem ackBlocks_add (a b : Nat) : ackBlocks (a + b) = ackBlocks a ++ ackBlocks b := by
  induction a with
  | zero => simp [ackBlocks]
  | succ a ih =>
      rw [show a + 1 + b = (a + b) + 1 by omega]
      calc ackBlocks (a + b + 1) = txBlock false ++ ackBlocks (a + b) := rfl
        _ = txBlock false ++ (ackBlocks a ++ ackBlocks b) := by rw [ih]
        _ = ackBlocks (a + 1) ++ ackBlocks b := by
              rw [show ackBlocks (a + 1) = txBlock false ++ ackBlocks a from rfl,
                  List.append_assoc]

/-- Configuration at the entry of transmitted-byte block `j` of a
read-direction transaction: `j + 1` bytes have been fetched via `i2c_read`
(one at the address byte, one at the end of each of the `j` completed
blocks), and the `j`-th fetched byte sits in the shift register. -/
theorem read_entry (env : I2cBus) (A : Nat) (hA : A ≤ 127)
    (hdev : env.hasDevice A = true) :
    ∀ j : Nat,
      i2c_gpio_run env initSim (readTxStem A ++ ackBlocks j)
        = ⟨⟨1, 0, if j = 0 then 4 else 3, 3, A, 1, 0, 0, 1, env.readVal j A % 256⟩,
           [BusEv.hasDev A true, BusEv.start A]
             ++ (List.range (j + 1)).map (fun k => BusEv.rd A (env.readVal k A % 256)),
           j + 1⟩ := by
  intro j
  induction j with
  | zero =>
      rw [show ackBlocks 0 = [] from rfl, List.append_nil]
      rw [show initSim = ⟨⟨1, 1, 0, 0, 255, 0, 0, 0, 0, 0⟩, [], 0⟩ from rfl]
      rw [readTxStem, i2c_gpio_run_append, i2c_gpio_run_append]
      rw [start_step env [] 0 1 0 255 0 0 0 0 0]
      rw [recv_addr_read_new env [] 0 1 1 0 A 0 0 0 (Or.inl rfl) hA hdev]
      simp only [List.nil_append]
      rw [ack_step env [BusEv.hasDev A true, BusEv.start A,
            BusEv.rd A (env.readVal 0 A % 256)] 1 1 3 A 1 1 8 1 (env.readVal 0 A % 256)]
      norm_num
      simp [List.range_succ]
  | succ j ih =>
      rw [ackBlocks_succ, ← List.append_assoc, i2c_gpio_run_append, ih]
      have hst : (if j = 0 then 4 else 3) = 3 ∨ (if j = 0 then 4 else 3) = 4 := by
        split_ifs <;> simp
      rw [tx_block_ack env _ (j + 1) 0 (if j = 0 then 4 else 3) 3 A 1 0 1
            (env.readVal j A % 256) hst]
      simp [List.range_succ]

set_option maxRecDepth 10000 in
/-- The bit driven at each of the eight transmit rising edges is the
corresponding most-significant-first bit of the original byte. -/
theorem bitval : ∀ R < 256,
    (R &&& 128 = 128 * (R / 128 % 2)) ∧
    (R * 2 % 256 &&& 128 = 128 * (R / 64 % 2)) ∧
    (R * 2 % 256 * 2 % 256 &&& 128 = 128 * (R / 32 % 2)) ∧
    (R * 2 % 256 * 2 % 256 * 2 % 256 &&& 128 = 128 * (R / 16 % 2)) ∧
    (R * 2 % 256 * 2 % 256 * 2 % 256 * 2 % 256 &&& 128 = 128 * (R / 8 % 2)) ∧
    (R * 2 % 256 * 2 % 256 * 2 % 256 * 2 % 256 * 2 % 256 &&& 128 = 128 * (R / 4 % 2)) ∧
    (R * 2 % 256 * 2 % 256 * 2 % 256 * 2 % 256 * 2 % 256 * 2 % 256 &&& 128
      = 128 * (R / 2 % 2)) ∧
    (R * 2 % 256 * 2 % 256 * 2 % 256 * 2 % 256 * 2 % 256 * 2 % 256 * 2 % 256 &&& 128
      = 128 * (R / 1 % 2)) := by
  decide

/-- After the `(i+1)`-st transmit rising edge of a block, the level the
engine presents on the data line is bit `7 - i` of the byte being sent
(scaled to the driven constant 128). -/
theorem tx_prefix_sda (env : I2cBus) (t : List BusEv) (n : Nat)
    (s st ss A rw l tr R : Nat) (hst : st = 3 ∨ st = 4) (hR : R ≤ 255) :
    ∀ i < 8,
      i2c_gpio_get_sda (i2c_gpio_run env ⟨⟨1, s, st, ss, A, rw, l, 0, tr, R⟩, t, n⟩
          (List.take (2 * i + 2) (txBlock false))).dev
        = 128 * byteBit R (7 - i) := by
  intro i hi
  interval_cases i
  · rw [show List.take (2 * 0 + 2) (txBlock false) = [(0,1),(1,1)] from rfl]
    rw [tx_bit env t n s st ss A rw l 0 tr R hst (by omega)]
    have hb := (bitval R (by omega)).1
    simpa [i2c_gpio_get_sda, byteBit] using hb
  · rw [show List.take (2 * 1 + 2) (txBlock false) = [(0,1),(1,1)] ++ ([(0,1),(1,1)]) from rfl]
    simp only [i2c_gpio_run_append]
    rw [tx_bit env t n s st ss A rw l 0 tr R hst (by omega)]
    rw [tx_bit env t n _ _ _ _ _ _ _ _ _ (Or.inr rfl) (by omega)]
    have hb := (bitval R (by omega)).2.1
    simpa [i2c_gpio_get_sda, byteBit] using hb
  · rw [show List.take (2 * 2 + 2) (txBlock false) = [(0,1),(1,1)] ++ ([(0,1),(1,1)] ++ ([(0,1),(1,1)])) from rfl]
    simp only [i2c_gpio_run_append]
    rw [tx_bit env t n s st ss A rw l 0 tr R hst (by omega)]
    rw [tx_bit env t n _ _ _ _ _ _ _ _ _ (Or.inr rfl) (by omega)]
    rw [tx_bit env t n _ _ _ _ _ _ _ _ _ (Or.inr rfl) (by omega)]
    have hb := (bitval R (by omega)).2.2.1
    simpa [i2c_gpio_get_sda, byteBit] using hb
  · rw [show List.take (2 * 3 + 2) (txBlock false) = [(0,1),(1,1)] ++ ([(0,1),(1,1)] ++ ([(0,1),(1,1)] ++ ([(0,1),(1,1)]))) from rfl]
    simp only [i2c_gpio_run_append]
    rw [tx_bit env t n s st ss A rw l 0 tr R hst (by omega)]
    rw [tx_bit env t n _ _ _ _ _ _ _ _ _ (Or.inr rfl) (by omega)]
    rw [tx_bit env t n _ _ _ _ _ _ _ _ _ (Or.inr rfl) (by omega)]
    rw [tx_bit env t n _ _ _ _ _ _ _ _ _ (Or.inr rfl) (by omega)]
    have hb := (bitval R (by omega)).2.2.2.1
    simpa [i2c_gpio_get_sda, byteBit] using hb
  · rw [show List.take (2 * 4 + 2) (txBlock false) = [(0,1),(1,1)] ++ ([(0,1),(1,1)] ++ ([(0,1),(1,1)] ++ ([(0,1),(1,1)] ++ ([(0,1),(1,1)])))) from rfl]
    simp only [i2c_gpio_run_append]
    rw [tx_bit env t n s st ss A rw l 0 tr R hst (by omega)]
    rw [tx_bit env t n _ _ _ _ _ _ _ _ _ (Or.inr rfl) (by omega)]
    rw [tx_bit env t n _ _ _ _ _ _ _ _ _ (Or.inr rfl) (by omega)]
    rw [tx_bit env t n _ _ _ _ _ _ _ _ _ (Or.inr rfl) (by omega)]
    rw [tx_bit env t n _ _ _ _ _ _ _ _ _ (Or.inr rfl) (by omega)]
    have hb := (bitval R (by omega)).2.2.2.2.1
    simpa [i2c_gpio_get_sda, byteBit] using hb
  · rw [show List.take (2 * 5 + 2) (txBlock false) = [(0,1),(1,1)] ++ ([(0,1),(1,1)] ++ ([(0,1),(1,1)] ++ ([(0,1),(1,1)] ++ ([(0,1),(1,1)] ++ ([(0,1),(1,1)]))))) from rfl]
    simp only [i2c_gpio_run_append]
    rw [tx_bit env t n s st ss A rw l 0 tr R hst (by omega)]
    rw [tx_bit env t n _ _ _ _ _ _ _ _ _ (Or.inr rfl) (by omega)]
    rw [tx_bit env t n _ _ _ _ _ _ _ _ _ (Or.inr rfl) (by omega)]
    rw [tx_bit env t n _ _ _ _ _ _ _ _ _ (Or.inr rfl) (by omega)]
    rw [tx_bit env t n _ _ _ _ _ _ _ _ _ (Or.inr rfl) (by omega)]
    rw [tx_bit env t n _ _ _ _ _ _ _ _ _ (Or.inr rfl) (by omega)]
    have hb := (bitval R (by omega)).2.2.2.2.2.1
    simpa [i2c_gpio_get_sda, byteBit] using hb
  · rw [show List.take (2 * 6 + 2) (txBlock false) = [(0,1),(1,1)] ++ ([(0,1),(1,1)] ++ ([(0,1),(1,1)] ++ ([(0,1),(1,1)] ++ ([(0,1),(1,1)] ++ ([(0,1),(1,1)] ++ ([(0,1),(1,1)])))))) from rfl]
    simp only [i2c_gpio_run_append]
    rw [tx_bit env t n s st ss A rw l 0 tr R hst (by omega)]
    rw [tx_bit env t n _ _ _ _ _ _ _ _ _ (Or.inr rfl) (by omega)]
    rw [tx_bit env t n _ _ _ _ _ _ _ _ _ (Or.inr rfl) (by omega)]
    rw [tx_bit env t n _ _ _ _ _ _ _ _ _ (Or.inr rfl) (by omega)]
    rw [tx_bit env t n _ _ _ _ _ _ _ _ _ (Or.inr rfl) (by omega)]
    rw [tx_bit env t n _ _ _ _ _ _ _ _ _ (Or.inr rfl) (by omega)]
    rw [tx_bit env t n _ _ _ _ _ _ _ _ _ (Or.inr rfl) (by omega)]
    have hb := (bitval R (by omega)).2.2.2.2.2.2.1
    simpa [i2c_gpio_get_sda, byteBit] using hb
  · rw [show List.take (2 * 7 + 2) (txBlock false) = [(0,1),(1,1)] ++ ([(0,1),(1,1)] ++ ([(0,1),(1,1)] ++ ([(0,1),(1,1)] ++ ([(0,1),(1,1)] ++ ([(0,1),(1,1)] ++ ([(0,1),(1,1)] ++ ([(0,1),(1,1)]))))))) from rfl]
    simp only [i2c_gpio_run_append]
    rw [tx_bit env t n s st ss A rw l 0 tr R hst (by omega)]
    rw [tx_bit env t n _ _ _ _ _ _ _ _ _ (Or.inr rfl) (by omega)]
    rw [tx_bit env t n _ _ _ _ _ _ _ _ _ (Or.inr rfl) (by omega)]
    rw [tx_bit env t n _ _ _ _ _ _ _ _ _ (Or.inr rfl) (by omega)]
    rw [tx_bit env t n _ _ _ _ _ _ _ _ _ (Or.inr rfl) (by omega)]
    rw [tx_bit env t n _ _ _ _ _ _ _ _ _ (Or.inr rfl) (by omega)]
    rw [tx_bit env t n _ _ _ _ _ _ _ _ _ (Or.inr rfl) (by omega)]
    rw [tx_bit env t n _ _ _ _ _ _ _ _ _ (Or.inr rfl) (by omega)]
    have hb := (bitval R (by omega)).2.2.2.2.2.2.2
    simpa [i2c_gpio_get_sda, byteBit] using hb

/-- The first sixteen edges of a transmit block do not depend on the final
(n)ack edge. -/
theorem take_txBlock_eq : ∀ i < 8,
    List.take (2 * i + 2) (txBlock false) = List.take (2 * i + 2) (txBlock true) := by
  intro i hi
  interval_cases i <;> rfl

/-- Claim C2: feeding the canonical edge stream of a read-direction
transaction of `n ≥ 1` bytes to a registered device `A` — start, address
byte `2*A + 1`, engine acknowledge, then `n` transmitted bytes, the first
`n - 1` acknowledged by the master and the last not-acknowledged — (1) the
directory observes exactly one `i2c_start`, then the `n` `i2c_read` calls
in order, then one `i2c_stop`; (2) at the entry of each transmitted byte
block `j`, exactly `j + 1` reads have happened (`i2c_read` is called once
before the first bit of each byte); (3) on each of the eight rising clock
edges of block `j`, the level exposed via `i2c_gpio_get_sda` equals the
most-significant-bit-first expansion of the byte the `j`-th `i2c_read`
returned.  The prefix witnesses (`rest`) show the probed edge sequences are
prefixes of the full transaction. -/
theorem c2_read_transaction (env : I2cBus) (A n : Nat)
    (hA : A ≤ 127) (hn : 1 ≤ n) (hdev : env.hasDevice A = true) :
    (i2c_gpio_run env initSim (readTxEdges A n)).trace
      = [BusEv.hasDev A true, BusEv.start A]
        ++ (List.range n).map (fun k => BusEv.rd A (env.readVal k A % 256))
        ++ [BusEv.stop A]
    ∧ (∀ j, j < n →
        (i2c_gpio_run env initSim (readTxStem A ++ ackBlocks j)).nreads = j + 1
        ∧ ∃ rest, (readTxStem A ++ ackBlocks j) ++ rest = readTxEdges A n)
    ∧ (∀ j, j < n → ∀ i, i < 8 →
        i2c_gpio_get_sda (i2c_gpio_run env initSim
            ((readTxStem A ++ ackBlocks j) ++ List.take (2 * i + 2) (txBlock false))).dev
          = 128 * byteBit (env.readVal j A % 256) (7 - i)
        ∧ ∃ rest, ((readTxStem A ++ ackBlocks j) ++ List.take (2 * i + 2) (txBlock false))
            ++ rest = readTxEdges A n) := by
  refine ⟨?_, ?_, ?_⟩
  · -- (1) the full trace
    have hst : (if n - 1 = 0 then 4 else 3) = 3 ∨ (if n - 1 = 0 then 4 else 3) = 4 := by
      split_ifs <;> simp
    obtain ⟨B', hnak⟩ := tx_block_nak env
      ([BusEv.hasDev A true, BusEv.start A]
        ++ (List.range (n - 1 + 1)).map (fun k => BusEv.rd A (env.readVal k A % 256)))
      (n - 1 + 1) 0 (if n - 1 = 0 then 4 else 3) 3 A 1 0 1
      (env.readVal (n - 1) A % 256) hst hA
    rw [readTxEdges, i2c_gpio_run_append, read_entry env A hA hdev (n - 1), hnak]
    rw [show n - 1 + 1 = n from by omega]
  · -- (2) reads-before-block counts and prefix witnesses
    intro j hj
    constructor
    · rw [read_entry env A hA hdev j]
    · refine ⟨ackBlocks (n - 1 - j) ++ txBlock true, ?_⟩
      rw [readTxEdges]
      have hsplit : ackBlocks (n - 1) = ackBlocks j ++ ackBlocks (n - 1 - j) := by
        rw [← ackBlocks_add]
        congr 1
        omega
      rw [hsplit]
      simp [List.append_assoc]
  · -- (3) per-bit output levels and prefix witnesses
    intro j hj i hi
    constructor
    · rw [i2c_gpio_run_append, read_entry env A hA hdev j]
      have hst : (if j = 0 then 4 else 3) = 3 ∨ (if j = 0 then 4 else 3) = 4 := by
        split_ifs <;> simp
      exact tx_prefix_sda env _ (j + 1) 0 (if j = 0 then 4 else 3) 3 A 1 0 1
        (env.readVal j A % 256) hst (by omega) i hi
    · by_cases hlast : j = n - 1
      · refine ⟨List.drop (2 * i + 2) (txBlock true), ?_⟩
        subst hlast
        rw [take_txBlock_eq i hi, readTxEdges]
        rw [List.append_assoc, List.take_append_drop]
      · refine ⟨List.drop (2 * i + 2) (txBlock false)
          ++ (ackBlocks (n - 2 - j) ++ txBlock true), ?_⟩
        rw [readTxEdges]
        have hsplit : ackBlocks (n - 1)
            = ackBlocks j ++ (txBlock false ++ ackBlocks (n - 2 - j)) := by
          rw [show n - 1 = j + (n - 2 - j + 1) from by omega, ackBlocks_add]
          rfl
        rw [hsplit]
        simp only [List.append_assoc]
        rw [← List.append_assoc (List.take (2 * i + 2) (txBlock false))
              (List.drop (2 * i + 2) (txBlock false)), List.take_append_drop]

/-- Witness for C2: a two-byte read from device 0x51 on a fully-populated
bus whose k-th read returns `100 + k`. -/
theorem c2_read_transaction_witness :
    81 ≤ 127 ∧ 1 ≤ 2 ∧ envAll.hasDevice 81 = true ∧
    ((i2c_gpio_run envAll initSim (readTxEdges 81 2)).trace
      = [BusEv.hasDev 81 true, BusEv.start 81]
        ++ (List.range 2).map (fun k => BusEv.rd 81 (envAll.readVal k 81 % 256))
        ++ [BusEv.stop 81]
    ∧ (∀ j, j < 2 →
        (i2c_gpio_run envAll initSim (readTxStem 81 ++ ackBlocks j)).nreads = j + 1
        ∧ ∃ rest, (readTxStem 81 ++ ackBlocks j) ++ rest = readTxEdges 81 2)
    ∧ (∀ j, j < 2 → ∀ i, i < 8 →
        i2c_gpio_get_sda (i2c_gpio_run envAll initSim
            ((readTxStem 81 ++ ackBlocks j) ++ List.take (2 * i + 2) (txBlock false))).dev
          = 128 * byteBit (envAll.readVal j 81 % 256) (7 - i)
        ∧ ∃ rest, ((readTxStem 81 ++ ackBlocks j) ++ List.take (2 * i + 2) (txBlock false))
            ++ rest = readTxEdges 81 2)) :=
  ⟨by norm_num, by norm_num, rfl,
   c2_read_transaction envAll 81 2 (by norm_num) (by norm_num) rfl⟩
